import Mathlib

/-!
Shallow embedding of the vectored HTTP range-read core of davix
(`src/fileops/httpiovec.cpp`).  Byte streams are `List Char`; machine
integers (`dav_ssize_t`, `long`) are `Int`; unsigned quantities
(`dav_off_t`, `dav_size_t`) are `Nat`.  Caller buffers are identified by a
`Nat` id, and the bytes written through a buffer are tracked in the output
descriptor, so that claims about copied content are statable.
-/

namespace Davix

/-- Input range descriptor, mirroring `DavIOVecInput`: the byte offset, the
requested length and the id of the caller-owned buffer. -/
structure DavIOVecInput where
  diov_offset : Nat
  diov_size : Nat
  diov_buffer : Nat
deriving DecidableEq, Repr

/-- Output descriptor, mirroring `DavIOVecOuput`.  `diov_buffer = none`
models the field before the code assigns it; `data` records the bytes the
code wrote through the aliased caller buffer. -/
structure DavIOVecOuput where
  diov_buffer : Option Nat := none
  diov_size : Int := 0
  data : List Char := []
deriving DecidableEq, Repr

/-- The error kinds produced by the core (`DavixError` payloads set through
the `HttpIoVecSetupError*` helpers and `httpcodeToDavixError`).
`readError` stands for a transport error raised by a failing
`readSegment`. -/
inductive DavixErr where
  | multiPart
  | multiPartTooLong
  | multiPartSize (reqOffset reqSize ansOffset ansSize : Nat)
  | httpCode (code : Nat)
  | readError
deriving DecidableEq, Repr

/-! ### Byte-stream primitives -/

/-- `HttpRequest::readLine`: consume one line, up to and including the
first `'\n'` (the whole rest of the stream when no newline remains). -/
def readLineRaw (s : List Char) : List Char × List Char :=
  let t := s.takeWhile (fun c => c ≠ '\n')
  match s.dropWhile (fun c => c ≠ '\n') with
  | '\n' :: rest => (t ++ ['\n'], rest)
  | r => (t, r)

/-- `trim_crlf`: strip every trailing `'\r'`/`'\n'` byte of a line. -/
def trim_crlf (l : List Char) : List Char :=
  (l.reverse.dropWhile (fun c => c = '\n' ∨ c = '\r')).reverse

/-- `parse_multi_part_header_line`: one `readLine` followed by
`trim_crlf`; returns the trimmed line and the remaining stream. -/
def readTrimmedLine (s : List Char) : List Char × List Char :=
  (trim_crlf (readLineRaw s).1, (readLineRaw s).2)

/-- `HttpRequest::readSegment` (external collaborator).
Modelled from the spec: "readSegment(buf, exactLen) → reads exactly
`exactLen` bytes or fails".  Success yields the bytes and the rest of the
stream; failure happens when fewer than `n` bytes remain. -/
def readSegment (n : Nat) (s : List Char) : Option (List Char × List Char) :=
  if n ≤ s.length then some (s.take n, s.drop n) else none

/-! ### String utilities (`StrUtil`) -/

/-- `StrUtil::tokenSplit`: split on any delimiter byte, dropping empty
tokens. -/
def tokenSplit (delims : List Char) : List Char → List (List Char)
  | [] => []
  | c :: rest =>
    let r := tokenSplit delims rest
    if c ∈ delims then r
    else
      match r, rest with
      | t :: ts, d :: _ => if d ∈ delims then (c :: []) :: t :: ts else (c :: t) :: ts
      | _, _ => [[c]]

/-- `strtol` with the checks of `find_header_params`: the token must be a
non-empty run of decimal digits (an optional leading `'+'` is accepted by
`strtol`), there must be no trailing non-digit byte, and the value must
stay below `LONG_MAX`. -/
def parseLong (t : List Char) : Option Nat :=
  let t := match t with
    | '+' :: rest => rest
    | other => other
  if t ≠ [] ∧ t.all Char.isDigit then
    let v := t.foldl (fun acc c => acc * 10 + (c.toNat - 48)) 0
    if v < 9223372036854775807 then some v else none
  else none

/-- Case-insensitive equality of header names (`StrUtil::compare_ncase`
returning 0). -/
def eqNoCase (a b : List Char) : Bool :=
  a.map Char.toLower == b.map Char.toLower

/-! ### Part-header field parsing -/

/-- The result of `find_header_params`: `-1` (error), `0` (not a
`Content-Range` header) or `1` with the part's offset and size. -/
inductive HeaderParams where
  | bad
  | notRange
  | range (offset size : Nat)
deriving DecidableEq, Repr

/-- `find_header_params`: locate the `':'` delimiter, check the header
name is `Content-Range` (case-insensitive), split the value on the
delimiter bytes (space, the letters of "bytes", dash, slash, tab), parse
the first two tokens as decimal numbers and derive `offset = first`,
`size = second - first + 1`. -/
def find_header_params (line : List Char) : HeaderParams :=
  let name := line.takeWhile (fun c => c ≠ ':')
  if name.length = line.length then .bad
  else if ¬ eqNoCase name "Content-Range".data then .notRange
  else
    let value := (line.drop (name.length + 1))
    let toks := tokenSplit (" bytes-/\t".data) value
    match toks with
    | t0 :: t1 :: _ =>
      match parseLong t0, parseLong t1 with
      | some a, some b => if b < a then .bad else .range a (b - a + 1)
      | _, _ => .bad
    | _ => .bad

/-- `is_a_start_boundary_part`: the line must start with `"--"` and the
rest must compare equal (`strcmp`) to the boundary. -/
def is_a_start_boundary_part (line : List Char) (boundary : List Char) : Bool :=
  match line with
  | '-' :: '-' :: rest => rest == boundary
  | _ => false

/-! ### Boundary extraction from Content-Type -/

/-- Position of the first occurrence of `pat` in `s`, if any
(`std::string::find`). -/
def findSub (pat : List Char) : List Char → Option Nat
  | [] => if pat = [] then some 0 else none
  | c :: rest =>
    if pat.isPrefixOf (c :: rest) then some 0
    else (findSub pat rest).map (· + 1)

/-- `http_extract_boundary_from_content_type`: find `"boundary="`, split
what follows on `"` and `;`, and accept the first token when its length is
between 1 and 70. -/
def http_extract_boundary_from_content_type (buffer : List Char) : Option (List Char) :=
  match findSub "boundary=".data buffer with
  | none => none
  | some pos =>
    let toks := tokenSplit ("\";".data) (buffer.drop (pos + 9))
    match toks with
    | t :: _ => if 0 < t.length ∧ t.length ≤ 70 then some t else none
    | [] => none

/-! ### The per-part header parser (`parse_multi_part_header`) -/

/-- Parser state for one multipart part (`ChunkInfo`). -/
structure ChunkInfo where
  bounded : Bool := false
  offset : Nat := 0
  size : Nat := 0
deriving DecidableEq, Repr

/-- Result of one `parse_multi_part_header` call: the returned code (0 or
-1), the final `ChunkInfo`, the remaining stream, the error channel, and
the number of header lines consumed (instrumentation counting the
`readLine` calls). -/
structure PHResult where
  code : Int
  info : ChunkInfo
  rest : List Char
  err : Option DavixErr
  lines : Nat
deriving DecidableEq, Repr

/-- Count one consumed header line. -/
def withLine (r : PHResult) : PHResult :=
  { r with lines := r.lines + 1 }

/-- `parse_multi_part_header`, written with an explicit fuel that mirrors
the `n_try` guard: the source recursion is re-entered only with
`n_try ≤ 100`, so a fuel of `102 - n_try` never runs out before the
`n_try > 100` guard fires; the fuel-exhausted branch repeats the guard's
result so the two presentations agree for every `n_try`. -/
def parseMPHFuel (boundary : List Char) :
    Nat → List Char → ChunkInfo → Nat → Option DavixErr → PHResult
  | 0, s, info, _, _ => ⟨-1, info, s, some .multiPartTooLong, 0⟩
  | fuel+1, s, info, ntry, err =>
    if ntry > 100 then ⟨-1, info, s, some .multiPartTooLong, 0⟩
    else
      let line := (readTrimmedLine s).1
      let rest := (readTrimmedLine s).2
      if ¬ info.bounded then
        if line.length = 0 then
          withLine (parseMPHFuel boundary fuel rest info (ntry+1) err)
        else if ¬ is_a_start_boundary_part line boundary then
          ⟨-1, info, rest, some .multiPart, 1⟩
        else
          withLine (parseMPHFuel boundary fuel rest { info with bounded := true } (ntry+1) err)
      else if info.offset = 0 ∧ info.size = 0 then
        match find_header_params line with
        | .bad => ⟨-1, info, rest, err, 1⟩
        | .notRange => withLine (parseMPHFuel boundary fuel rest info (ntry+1) err)
        | .range o sz =>
          withLine (parseMPHFuel boundary fuel rest { info with offset := o, size := sz } (ntry+1) err)
      else if line.length = 0 then ⟨0, info, rest, err, 1⟩
      else ⟨-1, info, rest, some .multiPart, 1⟩

/-- `parse_multi_part_header` proper. -/
def parse_multi_part_header (boundary : List Char) (s : List Char) (info : ChunkInfo)
    (ntry : Nat) (err : Option DavixErr) : PHResult :=
  parseMPHFuel boundary (102 - ntry) s info ntry err

/-! ### `copyChunk` and the multipart body router -/

/-- Result of one `copyChunk` call. -/
structure CopyResult where
  ret : Int
  out : DavIOVecOuput
  rest : List Char
  err : Option DavixErr
deriving DecidableEq, Repr

/-- `copyChunk`: for a zero-size range read and discard one byte and
record size 0; otherwise read exactly `diov_size` bytes into the caller's
buffer.  On success the output aliases the input buffer. -/
def copyChunk (s : List Char) (i : DavIOVecInput) (o : DavIOVecOuput) : CopyResult :=
  if i.diov_size = 0 then
    match readSegment 1 s with
    | some (_, rest) =>
      ⟨0, { o with diov_buffer := some i.diov_buffer, diov_size := 0 }, rest, none⟩
    | none => ⟨-1, o, s, some .readError⟩
  else
    match readSegment i.diov_size s with
    | some (bytes, rest) =>
      ⟨(i.diov_size : Int),
        { diov_buffer := some i.diov_buffer, diov_size := (i.diov_size : Int), data := bytes },
        rest, none⟩
    | none => ⟨-1, o, s, some .readError⟩

/-- Result of `parseMultipartRequest`: return value, the output
descriptors in caller order, the remaining response stream and the error
channel. -/
structure MPResult where
  ret : Int
  outs : List DavIOVecOuput
  rest : List Char
  err : Option DavixErr
deriving DecidableEq, Repr

/-- The `while(off < count_vec)` loop of `parseMultipartRequest`, as a
recursion over the remaining (input, output) pairs.  (The source passes
the total `count_vec` as bound even when `input_vec` was advanced by
`p_diff`; the recursion stops at the end of the actual data, which
coincides with the source whenever the parse starts at `p_diff = 0`.)
After the loop the remaining response bytes are drained with ignored
`readBlock` calls. -/
def parseMPLoop (boundary : List Char) :
    List (DavIOVecInput × DavIOVecOuput) → List Char → Int → MPResult
  | [], _, acc => ⟨acc, [], [], none⟩
  | (i, o) :: rest, s, acc =>
    let ph := parse_multi_part_header boundary s {} 0 none
    if ph.code < 0 then
      ⟨-1, o :: rest.map Prod.snd, ph.rest, ph.err⟩
    else if ph.info.offset = 0 ∧ ph.info.size = 0 ∧ ph.info.bounded = true then
      ⟨acc, o :: rest.map Prod.snd, ph.rest, none⟩
    else if i.diov_size ≠ 0 ∧ (ph.info.offset ≠ i.diov_offset ∨ ph.info.size ≠ i.diov_size) then
      ⟨-1, o :: rest.map Prod.snd, ph.rest,
        some (.multiPartSize i.diov_offset i.diov_size ph.info.offset ph.info.size)⟩
    else
      let cc := copyChunk ph.rest i o
      if cc.ret < 0 then
        ⟨-1, cc.out :: rest.map Prod.snd, cc.rest, cc.err⟩
      else
        let r := parseMPLoop boundary rest cc.rest (acc + cc.ret)
        ⟨r.ret, cc.out :: r.outs, r.rest, r.err⟩

/-- An HTTP response as seen through the `HttpRequest` capability:
status code, Content-Length (`getAnswerSize`), the optional
`Content-Type` header, and the body stream. -/
structure Response where
  retcode : Nat
  answerSize : Int
  contentType : Option (List Char)
  body : List Char
deriving DecidableEq, Repr

/-- `get_multi_part_info`: extract the boundary from the response's
`Content-Type` header. -/
def get_multi_part_info (r : Response) : Option (List Char) :=
  match r.contentType with
  | some ct => http_extract_boundary_from_content_type ct
  | none => none

/-- `HttpIOVecOps::parseMultipartRequest`: on a missing or invalid
multipart Content-Type return -1 without setting an error; otherwise run
the part loop over the response body. -/
def parseMultipartRequest (r : Response) (pairs : List (DavIOVecInput × DavIOVecOuput)) :
    MPResult :=
  match get_multi_part_info r with
  | none => ⟨-1, pairs.map Prod.snd, r.body, none⟩
  | some boundary => parseMPLoop boundary pairs r.body 0

/-! ### The full-body scatterer (`simulateMultiPartRequest`) -/

/-- One `ElemChunk` entry of the offset-ordered multimap: the original
input index, the input's offset and size, and the bytes written so far
through the output (`diov_size` is `written.length`). -/
structure ElemChunk where
  idx : Nat
  off : Nat
  size : Nat
  written : List Char
deriving DecidableEq, Repr

/-- `std::multimap` insertion: place the new entry after every entry whose
key is ≤ its own (insertion at the upper bound). -/
def insertUB (x : ElemChunk) : List ElemChunk → List ElemChunk
  | [] => [x]
  | y :: ys => if y.off ≤ x.off then y :: insertUB x ys else x :: y :: ys

/-- Tag the inputs with their index, as `ElemChunk`s with nothing written
yet (the `ElemChunk` constructor resets the output's size to 0 and points
its buffer at the input's buffer). -/
def mkChunks : List DavIOVecInput → Nat → List ElemChunk
  | [], _ => []
  | i :: rest, k => ⟨k, i.diov_offset, i.diov_size, []⟩ :: mkChunks rest (k+1)

/-- `fill_map_chunk`: build the offset-ordered multimap. -/
def fill_map_chunk (inputs : List DavIOVecInput) : List ElemChunk :=
  (mkChunks inputs 0).foldl (fun m x => insertUB x m) []

/-- First half of `balance_iterator_windows`: advance `start` past every
range that ends strictly before the current position. -/
def advStart (ents : List ElemChunk) (s : Nat) (pos : Int) : Nat :=
  s + ((ents.drop s).takeWhile
    (fun ent => decide (pos > (ent.off : Int) + (ent.size : Int)))).length

/-- Second half of `balance_iterator_windows`: advance `end` over every
range that the current block has begun to cover. -/
def advEnd (ents : List ElemChunk) (e : Nat) (end_chunk_pos : Int) : Nat :=
  e + ((ents.drop e).takeWhile
    (fun ent => decide (end_chunk_pos > (ent.off : Int)))).length

/-- The per-entry body of `fill_concerned_chunk_buffer`: copy
`min(size - cur, read_size - read_offset)` bytes of the block at the
entry's write cursor when that quantity is positive. -/
def fillOne (block : List Char) (read_size pos : Int) (ent : ElemChunk) : ElemChunk :=
  let cur : Int := ent.written.length
  let read_offset : Int := (ent.off : Int) + cur - pos
  let s_needed : Int := min ((ent.size : Int) - cur) (read_size - read_offset)
  if 0 < s_needed then
    { ent with written := ent.written ++ (block.drop read_offset.toNat).take s_needed.toNat }
  else ent

/-- `fill_concerned_chunk_buffer`: apply `fillOne` to the entries with
index in `[s, e)`. -/
def fillWindow (block : List Char) (read_size pos : Int) (s e : Nat) :
    List ElemChunk → Nat → List ElemChunk
  | [], _ => []
  | ent :: rest, j =>
    (if s ≤ j ∧ j < e then fillOne block read_size pos ent else ent)
      :: fillWindow block read_size pos s e rest (j+1)

/-- The davix read block size used by the streaming loop and the line
reader.  Modelled from the spec: the constant lives in a davix header
outside the sources; the spec only asks for a fixed block buffer. -/
def DAVIX_READ_BLOCK_SIZE : Nat := 4096

/-- The `readBlock` streaming loop of `simulateMultiPartRequest`, with an
explicit fuel; each iteration consumes at least one byte, so a fuel of
`body.length + 1` completes the stream. -/
def simLoop : Nat → List ElemChunk → Nat → Nat → Int → List Char → List ElemChunk
  | 0, ents, _, _, _, _ => ents
  | fuel+1, ents, s, e, pos, body =>
    if body.isEmpty then ents
    else
      let block := body.take DAVIX_READ_BLOCK_SIZE
      let len : Int := block.length
      let s2 := advStart ents s pos
      let e2 := advEnd ents e (pos + len)
      let ents2 := fillWindow block len pos s2 e2 ents 0
      simLoop fuel ents2 s2 e2 (pos + len) (body.drop DAVIX_READ_BLOCK_SIZE)

/-- `sum_all_chunk_size`: total bytes written over all map entries. -/
def sum_all_chunk_size (ents : List ElemChunk) : Int :=
  ents.foldl (fun acc ent => acc + (ent.written.length : Int)) 0

/-- The bytes written for original index `k` after the scatter. -/
def chunkFor (ents : List ElemChunk) (k : Nat) : List Char :=
  match ents.find? (fun ent => ent.idx == k) with
  | some ent => ent.written
  | none => []

/-- Read the outputs back in caller order (in the source the entries write
through pointers into `output_vec`). -/
def outputsOf : List DavIOVecInput → List ElemChunk → Nat → List DavIOVecOuput
  | [], _, _ => []
  | i :: rest, ents, k =>
    { diov_buffer := some i.diov_buffer,
      diov_size := ((chunkFor ents k).length : Int),
      data := chunkFor ents k } :: outputsOf rest ents (k+1)

/-- `HttpIOVecOps::simulateMultiPartRequest`: stream the 200 full body
once and scatter it into the per-range buffers; return the summed sizes
and the outputs. -/
def simulateMultiPartRequest (r : Response) (inputs : List DavIOVecInput) :
    Int × List DavIOVecOuput :=
  let cmap := fill_map_chunk inputs
  let final := simLoop (r.body.length + 1) cmap 0 0 0 r.body
  (sum_all_chunk_size final, outputsOf inputs final 0)

/-! ### Range header generation -/

/-- `davIOVecProvider`: the (begin, end) pair of one input,
`end = max(begin + size - 1, begin)` so that a zero-size range encodes as
`begin-begin`. -/
def davIOVecProvider (i : DavIOVecInput) : Nat × Nat :=
  (i.diov_offset, max (i.diov_offset + i.diov_size - 1) i.diov_offset)

/-- Wire text of one range. -/
def rangeStr (p : Nat × Nat) : String :=
  toString p.1 ++ "-" ++ toString p.2

/-- Modelled from the spec: the greedy loop of `generateRangeHeaders`
(declared in `httpiovec.hpp`, body not under the sources): append
comma-separated `"ofs-end"` pieces while the header stays within the
budget, emit and restart otherwise; a single oversized range is emitted
alone. -/
def grhGo (budget : Nat) : List (Nat × Nat) → Nat → String → List (Nat × String)
  | [], cnt, cur => if cnt = 0 then [] else [(cnt, cur)]
  | p :: rest, cnt, cur =>
    let s := rangeStr p
    if cnt = 0 then grhGo budget rest 1 s
    else if cur.length + 1 + s.length ≤ budget then
      grhGo budget rest (cnt + 1) (cur ++ "," ++ s)
    else (cnt, cur) :: grhGo budget rest 1 s

/-- Modelled from the spec: `generateRangeHeaders` — ordered
`(count, headerValue)` pairs covering all ranges. -/
def generateRangeHeaders (budget : Nat) (ranges : List (Nat × Nat)) : List (Nat × String) :=
  grhGo budget ranges 0 ""

/-! ### Orchestration (`preadVec`, `performMultirange`) -/

/-- Externally observable requests issued by the orchestrator: single
range `pread` calls to the IO chain, and multirange GETs. -/
inductive Event where
  | pread (offset size : Nat)
  | get (range : String)
deriving DecidableEq, Repr

/-- The environment: the HTTP collaborator answering a multirange GET for
a given `Range` header value, the IO-chain `pread` oracle (returned size
and bytes), and the URI's `multirange` fragment parameter (empty string
when absent, as `getFragmentParam` returns). -/
structure Env where
  server : String → Response
  pread : Nat → Nat → Int × List Char
  fragMultirange : String

/-- `HttpIOVecOps::singleRangeRequest`: one external `pread`; the output
aliases the input buffer unconditionally. -/
def singleRangeRequest (env : Env) (i : DavIOVecInput) : Int × DavIOVecOuput :=
  let r := env.pread i.diov_offset i.diov_size
  (r.1, { diov_buffer := some i.diov_buffer, diov_size := r.1, data := r.2 })

/-- `HttpIOVecOps::simulateMultirange`: one single-range request per
input, in order, summing the returned sizes. -/
def simulateMultirange (env : Env) : List DavIOVecInput → Int × List DavIOVecOuput × List Event
  | [] => (0, [], [])
  | i :: rest =>
    let r := singleRangeRequest env i
    let rr := simulateMultirange env rest
    (r.1 + rr.1, r.2 :: rr.2.1, .pread i.diov_offset i.diov_size :: rr.2.2)

/-- `MultirangeResult::OperationResult`. -/
inductive OpResult where
  | SUCCESS
  | SUCCESS_BUT_NO_MULTIRANGE
  | NOMULTIRANGE
deriving DecidableEq, Repr

/-- `performMultirange`'s outcome: the `MultirangeResult` pair, the
outputs, the events issued, and the error channel (`tmp_err`) that
`checkDavixError` inspects on exit. -/
structure MRResult where
  res : OpResult
  size_bytes : Int
  outs : List DavIOVecOuput
  events : List Event
  err : Option DavixErr
deriving DecidableEq, Repr

/-- Replace the slice of `outs` starting at `p` by `seg`. -/
def splice (outs : List DavIOVecOuput) (p : Nat) (seg : List DavIOVecOuput) :
    List DavIOVecOuput :=
  outs.take p ++ seg ++ outs.drop (p + seg.length)

/-- The batch loop of `performMultirange` over the generated range
headers.  State: remaining batches, `p_diff`, `ret`, `tmp_ret` (assigned
`-1` at declaration and never reassigned in the source), outputs and
events.  A 206 answer overwrites `ret` with the parse result (as the
source does) and, on success, falls through to `ret += tmp_ret`. -/
def performLoop (env : Env) (inputs : List DavIOVecInput) (bytes_to_read : Int) :
    List (Nat × String) → Nat → Int → Int → List DavIOVecOuput → List Event → MRResult
  | [], _, ret, _, outs, evs => ⟨.SUCCESS, ret, outs, evs, none⟩
  | (cnt, hdr) :: batches, p_diff, ret, tmp_ret, outs, evs =>
    if cnt = 1 then
      match (inputs.drop p_diff).head? with
      | some i =>
        let r := singleRangeRequest env i
        performLoop env inputs bytes_to_read batches (p_diff + 1) (ret + r.1) tmp_ret
          (splice outs p_diff [r.2]) (evs ++ [.pread i.diov_offset i.diov_size])
      | none => performLoop env inputs bytes_to_read batches (p_diff + 1) ret tmp_ret outs evs
    else
      let resp := env.server hdr
      let evs2 := evs ++ [.get hdr]
      if resp.retcode = 206 then
        let pr := parseMultipartRequest resp ((inputs.drop p_diff).zip (outs.drop p_diff))
        if pr.ret = -1 then
          ⟨.NOMULTIRANGE, pr.ret, splice outs p_diff pr.outs, evs2, pr.err⟩
        else
          performLoop env inputs bytes_to_read batches (p_diff + cnt) (pr.ret + tmp_ret) tmp_ret
            (splice outs p_diff pr.outs) evs2
      else if resp.retcode = 200 then
        if resp.answerSize > 1000000 ∧ resp.answerSize > 2 * bytes_to_read then
          ⟨.NOMULTIRANGE, ret, outs, evs2, none⟩
        else
          let sim := simulateMultiPartRequest resp inputs
          ⟨.SUCCESS_BUT_NO_MULTIRANGE, sim.1, sim.2, evs2, none⟩
      else
        ⟨.SUCCESS, -1, outs, evs2, some (.httpCode resp.retcode)⟩

/-- `HttpIOVecOps::performMultirange`. -/
def performMultirange (env : Env) (inputs : List DavIOVecInput)
    (outs0 : List DavIOVecOuput) : MRResult :=
  let bytes_to_read : Int := inputs.foldl (fun a i => a + (i.diov_size : Int)) 0
  let vecRanges := generateRangeHeaders 3900 (inputs.map davIOVecProvider)
  performLoop env inputs bytes_to_read vecRanges 0 0 (-1) outs0 []

instance : DecidableEq (Except DavixErr Int) := fun x y =>
  match x, y with
  | .ok a, .ok b => if h : a = b then isTrue (by rw [h]) else isFalse (by simp [h])
  | .error a, .error b => if h : a = b then isTrue (by rw [h]) else isFalse (by simp [h])
  | .ok _, .error _ => isFalse (by simp)
  | .error _, .ok _ => isFalse (by simp)

/-- The observable outcome of one `preadVec` call: the returned byte count
or the raised `DavixError` (`checkDavixError` throws when the error
channel is set), the output descriptors, and the issued requests. -/
structure VecResult where
  result : Except DavixErr Int
  outs : List DavIOVecOuput
  events : List Event
deriving DecidableEq, Repr

/-- `HttpIOVecOps::preadVec`: dispatch between the empty case, the
simulated multirange (N single-range preads) and the multirange path with
its fallback. -/
def preadVec (env : Env) (inputs : List DavIOVecInput) : VecResult :=
  if inputs.length = 0 then ⟨.ok 0, [], []⟩
  else if inputs.length = 1 ∨ env.fragMultirange = "false" then
    let r := simulateMultirange env inputs
    ⟨.ok r.1, r.2.1, r.2.2⟩
  else
    let outs0 : List DavIOVecOuput := inputs.map (fun _ => {})
    let mr := performMultirange env inputs outs0
    match mr.err with
    | some e => ⟨.error e, mr.outs, mr.events⟩
    | none =>
      if mr.res = .SUCCESS ∨ mr.res = .SUCCESS_BUT_NO_MULTIRANGE then
        ⟨.ok mr.size_bytes, mr.outs, mr.events⟩
      else
        let r := simulateMultirange env inputs
        ⟨.ok r.1, r.2.1, mr.events ++ r.2.2⟩

/-! ### Test fixtures from the specification's end-to-end scenarios -/

/-- The 30-byte resource of the end-to-end scenarios. -/
def fullBody30 : List Char := ("ABCDEFGHIJKLMNOPQRSTUVWXYZ0123").data

/-- A faithful single-range `pread` oracle over the 30-byte resource:
returns the available bytes of the requested range. -/
def preadOracle : Nat → Nat → Int × List Char :=
  fun off sz => ((((fullBody30.drop off).take sz).length : Int), (fullBody30.drop off).take sz)

/-- The inputs of scenario 1: ranges (0,4), (10,4), (20,4) with buffer ids
0, 1, 2. -/
def cleanInputs : List DavIOVecInput := [⟨0, 4, 0⟩, ⟨10, 4, 1⟩, ⟨20, 4, 2⟩]

/-- A clean multipart/byteranges 206 body for scenario 1, boundary
`bnd`. -/
def cleanBody : List Char :=
  ("--bnd\r\nContent-Range: bytes 0-3/30\r\n\r\nABCD\r\n--bnd\r\nContent-Range: bytes 10-13/30\r\n\r\nKLMN\r\n--bnd\r\nContent-Range: bytes 20-23/30\r\n\r\nUVWX\r\n--bnd--\r\n").data

/-- The clean 206 response of scenario 1. -/
def cleanResp : Response :=
  ⟨206, 30, some ("multipart/byteranges; boundary=bnd").data, cleanBody⟩

/-- Environment serving the clean 206 multipart answer. -/
def cleanEnv : Env := ⟨fun _ => cleanResp, preadOracle, ""⟩

/-- A trivial environment for witnesses. -/
def trivEnv : Env := ⟨fun _ => ⟨200, 0, none, []⟩, preadOracle, ""⟩

/-- The body of the mismatching part of scenario 5, after its header. -/
def misPartTail : List Char := ("PQRS\r\n--bnd--\r\n").data

/-- The mismatching part of scenario 5: the server reports
`Content-Range: bytes 15-18/30` where range (10,4) was expected. -/
def misPartStream : List Char :=
  ("--bnd\r\nContent-Range: bytes 15-18/30\r\n\r\n").data ++ misPartTail

/-- A zero-size part stream: the server still emits a one-byte body. -/
def zeroPartStream : List Char :=
  ("--bnd\r\nContent-Range: bytes 5-5/30\r\n\r\n").data ++ ('F' :: ("\r\n--bnd--\r\n").data)

/-- A stream whose next line is the closing boundary of `bnd`. -/
def closingStream : List Char := ("--bnd--\r\n").data ++ ("AFTER").data

/-- The size-guard condition exactly as claim C3 words it: the
Content-Length exceeds 1 MiB (1048576 bytes) and twice the total
requested bytes. -/
def claimC3Guard (contentLength total : Int) : Prop :=
  contentLength > 1048576 ∧ contentLength > 2 * total

instance (cl total : Int) : Decidable (claimC3Guard cl total) :=
  inferInstanceAs (Decidable (_ ∧ _))

/-- A 200 answer with Content-Length 1000001 for the 12 requested
bytes. -/
def guardResp : Response := ⟨200, 1000001, none, fullBody30⟩

/-- Environment serving the 200 answer with Content-Length 1000001. -/
def guardEnv : Env := ⟨fun _ => guardResp, preadOracle, ""⟩

/-- A 200 answer small enough to escape the guard. -/
def smallResp : Response := ⟨200, 30, none, fullBody30⟩

/-- Environment serving the small 200 answer. -/
def smallEnv : Env := ⟨fun _ => smallResp, preadOracle, ""⟩

/-- A 206 answer carrying a valid multipart boundary in its Content-Type
but an invalid opening boundary line in the body. -/
def badBoundResp : Response :=
  ⟨206, 30, some ("multipart/byteranges; boundary=bnd").data, ("garbage\r\nrest").data⟩

/-- Environment serving the bad-boundary 206 answer. -/
def badBoundEnv : Env := ⟨fun _ => badBoundResp, preadOracle, ""⟩

/-- A 206 answer with no boundary parameter in its Content-Type (a server
that answered 206 but without multipart framing). -/
def noBoundResp : Response :=
  ⟨206, 30, some ("application/octet-stream").data, ("ABCD").data⟩

/-- Environment serving the boundary-less 206 answer. -/
def noBoundEnv : Env := ⟨fun _ => noBoundResp, preadOracle, ""⟩

/-- The bytes a scatter entry should hold once the first `pos` body bytes
have streamed past: the part of its range already covered. -/
def entTarget (body : List Char) (pos : Nat) (ent : ElemChunk) : List Char :=
  (body.drop ent.off).take (min ent.size (pos - ent.off))

/-- The loop invariant of the full-body scatter (§ the two-cursor walk):
`pos` bytes are consumed; every entry holds exactly the covered part of
its range; entries before `start` are fully past, entries from `end` on
have not begun, entries before `end` have begun; the map is ordered by
offset. -/
structure SimInv (body : List Char) (ents : List ElemChunk) (s e pos : Nat) : Prop where
  hpos : pos ≤ body.length
  hw : ∀ (j : Nat) (ent : ElemChunk), ents[j]? = some ent →
    ent.written = entTarget body pos ent
  hs : ∀ (j : Nat) (ent : ElemChunk), j < s → ents[j]? = some ent →
    ent.off + ent.size < pos
  he : ∀ (j : Nat) (ent : ElemChunk), e ≤ j → ents[j]? = some ent → pos ≤ ent.off
  he2 : ∀ (j : Nat) (ent : ElemChunk), j < e → ents[j]? = some ent → ent.off < pos
  hse : s ≤ e
  hee : e ≤ ents.length
  hsorted : ents.Pairwise (fun a b => a.off ≤ b.off)

/-- Pointwise buffer aliasing of the outputs to the inputs (P1/R1). -/
def aliased (inputs : List DavIOVecInput) (outs : List DavIOVecOuput) : Prop :=
  outs.map DavIOVecOuput.diov_buffer = inputs.map (fun i => some i.diov_buffer)

/-- Total number of ranges covered by a batch list. -/
def sumCounts (batches : List (Nat × String)) : Nat :=
  (batches.map Prod.fst).sum

/-! ### Lemmas about the simulated multirange -/

theorem simulateMultirange_events (env : Env) :
    ∀ inputs : List DavIOVecInput,
      (simulateMultirange env inputs).2.2
        = inputs.map (fun i => Event.pread i.diov_offset i.diov_size)
  | [] => rfl
  | i :: rest => by
    simp [simulateMultirange, simulateMultirange_events env rest]

theorem simulateMultirange_ret (env : Env) :
    ∀ inputs : List DavIOVecInput,
      (simulateMultirange env inputs).1
        = (inputs.map (fun i => (env.pread i.diov_offset i.diov_size).1)).sum
  | [] => rfl
  | i :: rest => by
    simp [simulateMultirange, singleRangeRequest, simulateMultirange_ret env rest]

theorem simulateMultirange_outs (env : Env) :
    ∀ inputs : List DavIOVecInput,
      (simulateMultirange env inputs).2.1.map DavIOVecOuput.diov_buffer
        = inputs.map (fun i => some i.diov_buffer)
  | [] => rfl
  | i :: rest => by
    simp [simulateMultirange, singleRangeRequest, simulateMultirange_outs env rest]

/-! ### Claim C1 -/

/-- **C1, failing-input evaluation (code bug).**  On the spec's clean
multipart scenario — ranges (0,4), (10,4), (20,4) against the 30-byte
resource served as a clean multipart 206 — the multirange outcome is
`SUCCESS`, the three buffers receive "ABCD", "KLMN", "UVWX" (12 bytes in
total, and `parseMultipartRequest` itself returns 12), yet `preadVec`
returns 11: `performMultirange` overwrites `ret` with the parse result
and then executes `ret += tmp_ret` with `tmp_ret` still holding its
initial `-1`, so the claimed equality "return value = total bytes copied"
fails by one. -/
theorem c1_clean_multipart_preadVec_returns_eleven :
    (performMultirange cleanEnv cleanInputs
        (cleanInputs.map (fun _ => ({} : DavIOVecOuput)))).res = OpResult.SUCCESS
    ∧ (parseMultipartRequest cleanResp
        (cleanInputs.zip (cleanInputs.map (fun _ => ({} : DavIOVecOuput))))).ret = 12
    ∧ (preadVec cleanEnv cleanInputs).result = .ok 11
    ∧ (preadVec cleanEnv cleanInputs).outs.map DavIOVecOuput.data
        = [("ABCD").data, ("KLMN").data, ("UVWX").data]
    ∧ ((preadVec cleanEnv cleanInputs).outs.map DavIOVecOuput.diov_size).sum = 12 := by
  decide

/-! ### Claim C2 -/

/-- **C2 (confirmed).**  `preadVec` dispatch: zero ranges return 0 with no
request issued; one range, or the fragment parameter `multirange=false`,
issues exactly one `pread` per input range in input order, returns the
summed sizes, and never issues a multirange GET. -/
theorem c2_preadVec_dispatch (env : Env) (inputs : List DavIOVecInput) :
    (inputs.length = 0 →
      preadVec env inputs = ⟨.ok 0, [], []⟩)
    ∧ (inputs.length = 1 ∨ env.fragMultirange = "false" →
        (preadVec env inputs).events
            = inputs.map (fun i => Event.pread i.diov_offset i.diov_size)
        ∧ (preadVec env inputs).result
            = .ok ((inputs.map (fun i => (env.pread i.diov_offset i.diov_size).1)).sum)
        ∧ ∀ rangeHdr, Event.get rangeHdr ∉ (preadVec env inputs).events) := by
  constructor
  · intro h
    simp [preadVec, h]
  · intro h
    by_cases h0 : inputs.length = 0
    · have hne : inputs = [] := List.length_eq_zero.mp h0
      subst hne
      refine ⟨by simp [preadVec], by simp [preadVec], ?_⟩
      intro r hr
      simp [preadVec] at hr
    · have hv : preadVec env inputs
        = ⟨.ok (simulateMultirange env inputs).1,
            (simulateMultirange env inputs).2.1, (simulateMultirange env inputs).2.2⟩ := by
        simp [preadVec, h0, h]
      refine ⟨?_, ?_, ?_⟩
      · rw [hv]
        exact simulateMultirange_events env inputs
      · rw [hv]
        simp [simulateMultirange_ret env inputs]
      · intro r hr
        rw [hv] at hr
        simp only at hr
        rw [simulateMultirange_events env inputs] at hr
        rcases List.mem_map.mp hr with ⟨i, _, hi⟩
        exact Event.noConfusion hi



/-- Witness for C2 at the single-range input (0,4): exactly one `pread`
event, and the summed oracle size is returned. -/
theorem c2_preadVec_dispatch_witness :
    (preadVec trivEnv [⟨0, 4, 5⟩]).events = [Event.pread 0 4]
    ∧ (preadVec trivEnv [⟨0, 4, 5⟩]).result = .ok 4 := by
  have h := (c2_preadVec_dispatch trivEnv [⟨0, 4, 5⟩]).2 (Or.inl rfl)
  exact ⟨h.1, by rw [h.2.1]; decide⟩

/-! ### Structural lemmas about the part-header parser -/

theorem parseMPHFuel_code_cases (boundary : List Char) :
    ∀ (fuel : Nat) (s : List Char) (info : ChunkInfo) (ntry : Nat) (err : Option DavixErr),
      (parseMPHFuel boundary fuel s info ntry err).code = 0
      ∨ (parseMPHFuel boundary fuel s info ntry err).code = -1
  | 0, _, _, _, _ => Or.inr rfl
  | fuel+1, s, info, ntry, err => by
    simp only [parseMPHFuel]
    split
    · exact Or.inr rfl
    · split
      · split
        · simp only [withLine]
          exact parseMPHFuel_code_cases boundary fuel _ _ _ _
        · split
          · exact Or.inr rfl
          · simp only [withLine]
            exact parseMPHFuel_code_cases boundary fuel _ _ _ _
      · split
        · split
          · exact Or.inr rfl
          · simp only [withLine]
            exact parseMPHFuel_code_cases boundary fuel _ _ _ _
          · simp only [withLine]
            exact parseMPHFuel_code_cases boundary fuel _ _ _ _
        · split
          · exact Or.inl rfl
          · exact Or.inr rfl

theorem parseMPHFuel_ok_size_pos (boundary : List Char) :
    ∀ (fuel : Nat) (s : List Char) (info : ChunkInfo) (ntry : Nat) (err : Option DavixErr),
      (parseMPHFuel boundary fuel s info ntry err).code = 0 →
      ¬((parseMPHFuel boundary fuel s info ntry err).info.offset = 0
        ∧ (parseMPHFuel boundary fuel s info ntry err).info.size = 0)
  | 0, _, _, _, _ => by
    intro h
    simp [parseMPHFuel] at h
  | fuel+1, s, info, ntry, err => by
    simp only [parseMPHFuel]
    split
    · intro h
      simp at h
    · split
      · split
        · simp only [withLine]
          exact parseMPHFuel_ok_size_pos boundary fuel _ _ _ _
        · split
          · intro h
            simp at h
          · simp only [withLine]
            exact parseMPHFuel_ok_size_pos boundary fuel _ _ _ _
      · rename_i hb
        split
        · split
          · intro h
            simp at h
          · simp only [withLine]
            exact parseMPHFuel_ok_size_pos boundary fuel _ _ _ _
          · simp only [withLine]
            exact parseMPHFuel_ok_size_pos boundary fuel _ _ _ _
        · rename_i hsz
          split
          · intro _
            exact hsz
          · intro h
            simp at h

theorem parseMPHFuel_lines_le (boundary : List Char) :
    ∀ (fuel : Nat) (s : List Char) (info : ChunkInfo) (ntry : Nat) (err : Option DavixErr),
      101 ≤ ntry + fuel →
      (parseMPHFuel boundary fuel s info ntry err).lines ≤ 101 - ntry
  | 0, _, _, _, _ => by intro _; exact Nat.zero_le _
  | fuel+1, s, info, ntry, err => by
    intro hn
    simp only [parseMPHFuel]
    split
    · exact Nat.zero_le _
    · rename_i hg
      have hle : ntry ≤ 100 := by omega
      have hrec : 101 ≤ (ntry + 1) + fuel := by omega
      split
      · split
        · simp only [withLine]
          have := parseMPHFuel_lines_le boundary fuel ((readTrimmedLine s).2) info (ntry+1) err hrec
          omega
        · split
          · simp only
            omega
          · simp only [withLine]
            have := parseMPHFuel_lines_le boundary fuel ((readTrimmedLine s).2)
              { info with bounded := true } (ntry+1) err hrec
            omega
      · split
        · split
          · simp only
            omega
          · simp only [withLine]
            have := parseMPHFuel_lines_le boundary fuel ((readTrimmedLine s).2) info (ntry+1) err hrec
            omega
          · rename_i o sz _
            simp only [withLine]
            have := parseMPHFuel_lines_le boundary fuel ((readTrimmedLine s).2)
              { info with offset := o, size := sz } (ntry+1) err hrec
            omega
        · split
          · simp only
            omega
          · simp only
            omega

/-- Lift to the wrapper: a successful `parse_multi_part_header` never
reports `offset = 0 ∧ size = 0` (the end-of-body branch of the router is
unreachable). -/
theorem parse_header_ok_size_pos (boundary s : List Char) (info : ChunkInfo)
    (ntry : Nat) (err : Option DavixErr)
    (h : (parse_multi_part_header boundary s info ntry err).code = 0) :
    ¬((parse_multi_part_header boundary s info ntry err).info.offset = 0
      ∧ (parse_multi_part_header boundary s info ntry err).info.size = 0) :=
  parseMPHFuel_ok_size_pos boundary (102 - ntry) s info ntry err h

/-! ### Claim C8 -/

/-- **C8 (confirmed).**  The part-header parser consumes at most 101
header lines per part (its recursion is bounded by the `n_try` counter —
total by construction in this embedding), and once `n_try` exceeds 100 it
returns `-1` with the "multi-part header too long"
`InvalidServerResponse` without reading anything further. -/
theorem c8_header_line_bound (boundary s : List Char) (info : ChunkInfo)
    (ntry : Nat) (err : Option DavixErr) :
    (parse_multi_part_header boundary s info ntry err).lines ≤ 101
    ∧ (100 < ntry →
        parse_multi_part_header boundary s info ntry err
          = ⟨-1, info, s, some .multiPartTooLong, 0⟩) := by
  constructor
  · have h := parseMPHFuel_lines_le boundary (102 - ntry) s info ntry err (by omega)
    exact le_trans h (by omega)
  · intro h
    unfold parse_multi_part_header
    rcases Nat.eq_zero_or_eq_succ_pred (102 - ntry) with h0 | h1
    · rw [h0]
      rfl
    · rw [h1]
      simp [parseMPHFuel, h]

/-- Witness for C8 at `n_try = 101`: the guard fires, no line is read, and
the too-long error is produced. -/
theorem c8_header_line_bound_witness :
    (parse_multi_part_header ("b").data ("x\r\n").data {} 101 none).lines ≤ 101
    ∧ parse_multi_part_header ("b").data ("x\r\n").data {} 101 none
        = ⟨-1, {}, ("x\r\n").data, some .multiPartTooLong, 0⟩ :=
  ⟨(c8_header_line_bound ("b").data ("x\r\n").data {} 101 none).1,
    (c8_header_line_bound ("b").data ("x\r\n").data {} 101 none).2 (by decide)⟩

/-! ### Claim C4 -/

/-- **C4 (confirmed).**  Range mismatch is a hard error: at any part of
the multipart loop (the head of the remaining pairs, after an arbitrary
prefix has been processed into `acc`), if the header parses to
`(offset, size)` different from the expected input range and the expected
size is nonzero, the router stops at once with `-1`, the
`InvalidServerResponse` range-mismatch error, the already-written outputs
of earlier parts untouched, the pending outputs unmodified, and no byte
of the body consumed beyond the offending part's header. -/
theorem c4_range_mismatch_hard_error
    (boundary s s2 : List Char) (info : ChunkInfo) (k : Nat)
    (i : DavIOVecInput) (o : DavIOVecOuput)
    (rest : List (DavIOVecInput × DavIOVecOuput)) (acc : Int)
    (hp : parse_multi_part_header boundary s {} 0 none = ⟨0, info, s2, none, k⟩)
    (hsz : i.diov_size ≠ 0)
    (hmis : info.offset ≠ i.diov_offset ∨ info.size ≠ i.diov_size) :
    parseMPLoop boundary ((i, o) :: rest) s acc
      = ⟨-1, o :: rest.map Prod.snd, s2,
          some (.multiPartSize i.diov_offset i.diov_size info.offset info.size)⟩ := by
  have hcode0 : (parse_multi_part_header boundary s {} 0 none).code = 0 := by rw [hp]
  have hterm : ¬(info.offset = 0 ∧ info.size = 0) := by
    have h2 := parse_header_ok_size_pos boundary s {} 0 none hcode0
    rw [hp] at h2
    exact h2
  simp only [parseMPLoop, hp]
  rw [if_neg (by norm_num), if_neg (fun hc => hterm ⟨hc.1, hc.2.1⟩), if_pos ⟨hsz, hmis⟩]



/-- Witness for C4, scenario 5: expected range (10,4), part header reports
(15,4); the router returns `-1` with the range-mismatch error and stops
right after the header. -/
theorem c4_range_mismatch_hard_error_witness :
    parseMPLoop ("bnd").data [(⟨10, 4, 1⟩, {})] misPartStream 4
      = ⟨-1, [{}], misPartTail, some (.multiPartSize 10 4 15 4)⟩ :=
  c4_range_mismatch_hard_error ("bnd").data misPartStream misPartTail ⟨true, 15, 4⟩ 3
    ⟨10, 4, 1⟩ {} [] 4 (by decide) (by decide) (by decide)

/-! ### Claim C6 -/

/-- **C6 (confirmed).**  Zero-size ranges under the multipart path:
`copyChunk` reads and discards exactly one byte of the body, records
output size 0 and aliases the output buffer to the input buffer; and in
the router loop such a part (whatever range its header reported — the
mismatch check is skipped for zero-size inputs) contributes 0 bytes and
the loop proceeds to the next part on the stream past the discarded
byte. -/
theorem c6_zero_size_chunk
    (s : List Char) (i : DavIOVecInput) (o : DavIOVecOuput)
    (hz : i.diov_size = 0) (hne : s ≠ []) :
    copyChunk s i o
      = ⟨0, { o with diov_buffer := some i.diov_buffer, diov_size := 0 }, s.drop 1, none⟩
    ∧ ∀ (boundary s0 : List Char) (info : ChunkInfo) (k : Nat)
        (rest : List (DavIOVecInput × DavIOVecOuput)) (acc : Int),
        parse_multi_part_header boundary s0 {} 0 none = ⟨0, info, s, none, k⟩ →
        parseMPLoop boundary ((i, o) :: rest) s0 acc
          = ⟨(parseMPLoop boundary rest (s.drop 1) acc).ret,
              { o with diov_buffer := some i.diov_buffer, diov_size := 0 }
                :: (parseMPLoop boundary rest (s.drop 1) acc).outs,
              (parseMPLoop boundary rest (s.drop 1) acc).rest,
              (parseMPLoop boundary rest (s.drop 1) acc).err⟩ := by
  have hcc : copyChunk s i o
      = ⟨0, { o with diov_buffer := some i.diov_buffer, diov_size := 0 }, s.drop 1, none⟩ := by
    have hlen : 1 ≤ s.length := by
      cases s with
      | nil => exact absurd rfl hne
      | cons a t => exact Nat.succ_le_succ (Nat.zero_le _)
    simp [copyChunk, hz, readSegment, hlen]
  refine ⟨hcc, ?_⟩
  intro boundary s0 info k rest acc hp
  have hcode0 : (parse_multi_part_header boundary s0 {} 0 none).code = 0 := by rw [hp]
  have hterm : ¬(info.offset = 0 ∧ info.size = 0) := by
    have h2 := parse_header_ok_size_pos boundary s0 {} 0 none hcode0
    rw [hp] at h2
    exact h2
  simp only [parseMPLoop, hp]
  rw [if_neg (by norm_num), if_neg (fun hc => hterm ⟨hc.1, hc.2.1⟩),
    if_neg (fun hc => hc.1 hz)]
  simp only [hcc]
  rw [if_neg (by norm_num)]
  simp



/-- Witness for C6: a zero-size input range; `copyChunk` discards the
sentinel byte `'F'` and the router records size 0 before moving on. -/
theorem c6_zero_size_chunk_witness :
    copyChunk ('F' :: ("\r\n--bnd--\r\n").data) ⟨5, 0, 9⟩ {}
      = ⟨0, { diov_buffer := some 9, diov_size := 0, data := [] }, ("\r\n--bnd--\r\n").data, none⟩
    ∧ parseMPLoop ("bnd").data [(⟨5, 0, 9⟩, {})] zeroPartStream 0
      = ⟨0, [{ diov_buffer := some 9, diov_size := 0, data := [] }], [], none⟩ := by
  have h := c6_zero_size_chunk ('F' :: ("\r\n--bnd--\r\n").data) ⟨5, 0, 9⟩ {}
    (by decide) (by decide)
  refine ⟨h.1, ?_⟩
  rw [h.2 ("bnd").data zeroPartStream ⟨true, 5, 1⟩ 3 [] 0 (by decide)]
  decide

/-! ### Claim C7 -/



/-- One-step evaluation of the parser: in the unbounded state, a non-empty
line that is not a start boundary makes it fail with the multipart
error. -/
theorem parseMPHFuel_boundary_fail (boundary : List Char) (fuel : Nat) (s : List Char)
    (info : ChunkInfo) (ntry : Nat) (err : Option DavixErr)
    (hg : ¬ ntry > 100)
    (hb : info.bounded = false)
    (hlen : ¬ ((readTrimmedLine s).1).length = 0)
    (hnb : is_a_start_boundary_part ((readTrimmedLine s).1) boundary = false) :
    parseMPHFuel boundary (fuel+1) s info ntry err
      = ⟨-1, info, (readTrimmedLine s).2, some .multiPart, 1⟩ := by
  simp only [parseMPHFuel]
  rw [if_neg hg]
  simp only [hb, Bool.not_false, if_true, hnb]
  rw [if_neg hlen]
  simp

/-- **C7, counterexample.**  On the closing boundary `--bnd--` the
part-header parser does *not* return the terminal signal
`(bounded = true, offset = 0, size = 0)`: the exact `strcmp` comparison
against the boundary fails, so it returns `-1` with the
`InvalidServerResponse` error, and the router consequently fails with
`-1` instead of returning normally with the bytes already copied. -/
theorem c7_closing_boundary_counterexample :
    (parse_multi_part_header ("bnd").data closingStream {} 0 none).code = -1
    ∧ (parse_multi_part_header ("bnd").data closingStream {} 0 none).err
        = some .multiPart
    ∧ ¬((parse_multi_part_header ("bnd").data closingStream {} 0 none).code = 0
        ∧ (parse_multi_part_header ("bnd").data closingStream {} 0 none).info
            = ⟨true, 0, 0⟩)
    ∧ (parseMPLoop ("bnd").data [(⟨0, 4, 0⟩, {}), (⟨10, 4, 1⟩, {})] closingStream 0).ret
        = -1 := by
  decide

/-- **C7, amended.**  What the code does instead: (a) a line carrying the
closing boundary `--<boundary>--` makes the parser fail at once with `-1`
and the `InvalidServerResponse` multipart error (the trailing dashes make
the exact boundary comparison fail); (b) a successful parse never has
`offset = 0 ∧ size = 0`, so the router's end-of-body branch (which would
return normally with the bytes processed so far) is unreachable. -/
theorem c7_amended_closing_boundary_is_error :
    (∀ (boundary s : List Char) (info : ChunkInfo) (err : Option DavixErr),
        (readTrimmedLine s).1 = '-' :: '-' :: (boundary ++ ['-', '-']) →
        info.bounded = false →
        parse_multi_part_header boundary s info 0 err
          = ⟨-1, info, (readTrimmedLine s).2, some .multiPart, 1⟩)
    ∧ (∀ (boundary s : List Char) (info : ChunkInfo) (ntry : Nat) (err : Option DavixErr),
        (parse_multi_part_header boundary s info ntry err).code = 0 →
        ¬((parse_multi_part_header boundary s info ntry err).info.offset = 0
          ∧ (parse_multi_part_header boundary s info ntry err).info.size = 0)) := by
  constructor
  · intro boundary s info err hline hb
    have hnb : is_a_start_boundary_part ((readTrimmedLine s).1) boundary = false := by
      rw [hline]
      simp [is_a_start_boundary_part]
    show parseMPHFuel boundary (101+1) s info 0 err = _
    exact parseMPHFuel_boundary_fail boundary 101 s info 0 err (by norm_num) hb
      (by rw [hline]; simp) hnb
  · exact fun boundary s info ntry err h => parse_header_ok_size_pos boundary s info ntry err h

/-- Witness for C7's amended statement at the concrete closing-boundary
stream. -/
theorem c7_amended_witness :
    parse_multi_part_header ("bnd").data closingStream {} 0 none
      = ⟨-1, {}, ("AFTER").data, some .multiPart, 1⟩ := by
  have h := c7_amended_closing_boundary_is_error.1 ("bnd").data closingStream {} none
    (by decide) (by decide)
  rw [h]
  decide

/-! ### Claim C3 -/





/-- **C3, counterexample.**  The code's guard uses 1000000, not 1 MiB: at
Content-Length 1000001 (total requested 12 bytes) the claim's guard is
false — so, as stated, the full-body scatter path should be taken — yet
the code abandons the full-body path and issues the three single-range
`pread` calls. -/
theorem c3_mib_guard_counterexample :
    ¬ claimC3Guard 1000001 12
    ∧ (preadVec guardEnv cleanInputs).events
        = [Event.get "0-3,10-13,20-23", Event.pread 0 4, Event.pread 10 4, Event.pread 20 4]
    ∧ (preadVec guardEnv cleanInputs).result = .ok 12 := by
  decide

/-- **C3, amended (threshold 1,000,000 instead of 1 MiB).**  For a
multirange GET answered with 200: the full-body scatter path is taken iff
not (Content-Length > 1000000 and > 2× the total requested bytes); when
the guard fires the outcome is `NOMULTIRANGE` and `preadVec` silently
falls back to the N single-range `pread` calls (no error raised),
otherwise the whole body is scattered and its summed size returned. -/
theorem c3_size_guard_amended (env : Env) (inputs : List DavIOVecInput) (hdr : String)
    (h2 : 2 ≤ inputs.length)
    (hfrag : ¬ env.fragMultirange = "false")
    (hbatch : generateRangeHeaders 3900 (inputs.map davIOVecProvider)
        = [(inputs.length, hdr)])
    (hcode : (env.server hdr).retcode = 200) :
    ((env.server hdr).answerSize > 1000000
        ∧ (env.server hdr).answerSize
            > 2 * (inputs.foldl (fun a i => a + (i.diov_size : Int)) 0) →
      preadVec env inputs
        = ⟨.ok (simulateMultirange env inputs).1, (simulateMultirange env inputs).2.1,
            Event.get hdr :: (simulateMultirange env inputs).2.2⟩)
    ∧ (¬((env.server hdr).answerSize > 1000000
        ∧ (env.server hdr).answerSize
            > 2 * (inputs.foldl (fun a i => a + (i.diov_size : Int)) 0)) →
      preadVec env inputs
        = ⟨.ok (simulateMultiPartRequest (env.server hdr) inputs).1,
            (simulateMultiPartRequest (env.server hdr) inputs).2, [Event.get hdr]⟩) := by
  have hn0 : ¬ inputs.length = 0 := by omega
  have hn1 : ¬ (inputs.length = 1 ∨ env.fragMultirange = "false") := by
    rintro (h | h)
    · omega
    · exact hfrag h
  have hcnt : ¬ inputs.length = 1 := by omega
  constructor
  · intro hg
    simp only [preadVec, performMultirange, hbatch, performLoop]
    rw [if_neg hn0, if_neg hn1, if_neg hcnt, if_neg (by rw [hcode]; norm_num),
      if_pos hcode, if_pos hg]
    simp
  · intro hg
    simp only [preadVec, performMultirange, hbatch, performLoop]
    rw [if_neg hn0, if_neg hn1, if_neg hcnt, if_neg (by rw [hcode]; norm_num),
      if_pos hcode, if_neg hg]
    simp



/-- Witness for C3's amended statement: the 30-byte 200 answer is below
both thresholds, so the full body is scattered and 12 bytes are
returned. -/
theorem c3_size_guard_amended_witness :
    preadVec smallEnv cleanInputs
      = ⟨.ok (simulateMultiPartRequest (smallEnv.server "0-3,10-13,20-23") cleanInputs).1,
          (simulateMultiPartRequest (smallEnv.server "0-3,10-13,20-23") cleanInputs).2,
          [Event.get "0-3,10-13,20-23"]⟩
    ∧ (preadVec smallEnv cleanInputs).result = .ok 12 := by
  have h := (c3_size_guard_amended smallEnv cleanInputs "0-3,10-13,20-23"
    (by decide) (by decide) (by decide) (by decide)).2 (by decide)
  exact ⟨h, by rw [h]; decide⟩

/-! ### Claim C5 -/



/-- **C5, counterexample.**  Multipart parsing fails at the very first
part (no valid opening boundary line), yet `preadVec` does not retry with
single-range `pread` calls: the failing boundary check stored the
`InvalidServerResponse` error, so `checkDavixError` raises it on the way
out of `performMultirange` and no fallback happens — the only event is
the multirange GET itself. -/
theorem c5_first_part_failure_counterexample :
    (parseMultipartRequest badBoundResp
        (cleanInputs.zip (cleanInputs.map (fun _ => ({} : DavIOVecOuput))))).ret = -1
    ∧ (preadVec badBoundEnv cleanInputs).result = .error .multiPart
    ∧ (preadVec badBoundEnv cleanInputs).events = [Event.get "0-3,10-13,20-23"] := by
  decide

/-- **C5, amended.**  The fallback is silent only for first-part failures
that leave the error channel empty: (a) when the boundary is missing from
the Content-Type header, `parseMultipartRequest` returns `-1` with no
error stored, the outcome is `NOMULTIRANGE` and `preadVec` retries with
the N single-range `pread` calls; (b) a first-part failure that stores an
error (such as an invalid opening boundary line) makes `preadVec` raise
that error instead of falling back. -/
theorem c5_silent_fallback_amended (env : Env) (inputs : List DavIOVecInput) (hdr : String)
    (h2 : 2 ≤ inputs.length)
    (hfrag : ¬ env.fragMultirange = "false")
    (hbatch : generateRangeHeaders 3900 (inputs.map davIOVecProvider)
        = [(inputs.length, hdr)])
    (hcode : (env.server hdr).retcode = 206) :
    (get_multi_part_info (env.server hdr) = none →
      preadVec env inputs
        = ⟨.ok (simulateMultirange env inputs).1, (simulateMultirange env inputs).2.1,
            Event.get hdr :: (simulateMultirange env inputs).2.2⟩)
    ∧ (∀ e : DavixErr,
        (parseMultipartRequest (env.server hdr)
            (inputs.zip (inputs.map (fun _ => ({} : DavIOVecOuput))))).ret = -1 →
        (parseMultipartRequest (env.server hdr)
            (inputs.zip (inputs.map (fun _ => ({} : DavIOVecOuput))))).err = some e →
        (preadVec env inputs).result = .error e
        ∧ (preadVec env inputs).events = [Event.get hdr]) := by
  have hn0 : ¬ inputs.length = 0 := by omega
  have hn1 : ¬ (inputs.length = 1 ∨ env.fragMultirange = "false") := by
    rintro (h | h)
    · omega
    · exact hfrag h
  have hcnt : ¬ inputs.length = 1 := by omega
  constructor
  · intro hnob
    have hpr : parseMultipartRequest (env.server hdr)
        ((inputs.drop 0).zip ((inputs.map (fun _ => ({} : DavIOVecOuput))).drop 0))
        = ⟨-1, ((inputs.drop 0).zip ((inputs.map (fun _ => ({} : DavIOVecOuput))).drop 0)).map
            Prod.snd, (env.server hdr).body, none⟩ := by
      simp [parseMultipartRequest, hnob]
    simp only [preadVec, performMultirange, hbatch, performLoop]
    rw [if_neg hn0, if_neg hn1, if_neg hcnt, if_pos hcode]
    simp only [hpr]
    simp
  · intro e hret herr
    have hpr0 : parseMultipartRequest (env.server hdr)
        ((inputs.drop 0).zip ((inputs.map (fun _ => ({} : DavIOVecOuput))).drop 0))
        = parseMultipartRequest (env.server hdr)
            (inputs.zip (inputs.map (fun _ => ({} : DavIOVecOuput)))) := by
      simp
    constructor
    · simp only [preadVec, performMultirange, hbatch, performLoop]
      rw [if_neg hn0, if_neg hn1, if_neg hcnt, if_pos hcode]
      simp only [hpr0]
      rw [if_pos hret, herr]
    · simp only [preadVec, performMultirange, hbatch, performLoop]
      rw [if_neg hn0, if_neg hn1, if_neg hcnt, if_pos hcode]
      simp only [hpr0]
      rw [if_pos hret, herr]
      simp



/-- Witness for C5's amended statement: a 206 without a Content-Type
boundary silently falls back to the three single-range reads and returns
12. -/
theorem c5_silent_fallback_amended_witness :
    preadVec noBoundEnv cleanInputs
      = ⟨.ok (simulateMultirange noBoundEnv cleanInputs).1,
          (simulateMultirange noBoundEnv cleanInputs).2.1,
          Event.get "0-3,10-13,20-23" :: (simulateMultirange noBoundEnv cleanInputs).2.2⟩
    ∧ (preadVec noBoundEnv cleanInputs).result = .ok 12 := by
  have h := (c5_silent_fallback_amended noBoundEnv cleanInputs "0-3,10-13,20-23"
    (by decide) (by decide) (by decide) (by decide)).1 (by decide)
  exact ⟨h, by rw [h]; decide⟩

/-! ### Generic lemmas: takeWhile as a scan, fill window access -/

theorem takeWhile_len_le {α : Type} (p : α → Bool) :
    ∀ l : List α, (l.takeWhile p).length ≤ l.length
  | [] => Nat.le_refl 0
  | a :: t => by
    simp only [List.takeWhile_cons]
    split
    · simpa using takeWhile_len_le p t
    · simp

theorem takeWhile_sat {α : Type} (p : α → Bool) :
    ∀ (l : List α) (k : Nat) (a : α),
      k < (l.takeWhile p).length → l[k]? = some a → p a = true
  | [], k, a => by simp
  | b :: t, 0, a => by
    simp only [List.takeWhile_cons]
    split
    · rename_i hpb
      intro _ ha
      simp only [List.getElem?_cons_zero, Option.some.injEq] at ha
      rw [← ha]
      exact hpb
    · intro h
      simp at h
  | b :: t, k+1, a => by
    simp only [List.takeWhile_cons]
    split
    · intro hk ha
      simp only [List.length_cons, Nat.add_lt_add_iff_right] at hk
      exact takeWhile_sat p t k a hk (by simpa using ha)
    · intro h
      simp at h

theorem takeWhile_stop {α : Type} (p : α → Bool) :
    ∀ l : List α, (l.takeWhile p).length < l.length →
      ∃ a, l[(l.takeWhile p).length]? = some a ∧ p a = false
  | [] => by simp
  | b :: t => by
    simp only [List.takeWhile_cons]
    split
    · rename_i hpb
      intro h
      simp only [List.length_cons, Nat.add_lt_add_iff_right] at h
      obtain ⟨a, ha, hpa⟩ := takeWhile_stop p t h
      exact ⟨a, by simpa using ha, hpa⟩
    · rename_i hpb
      intro _
      exact ⟨b, by simp, by simpa using hpb⟩

theorem advStart_ge (ents : List ElemChunk) (s : Nat) (pos : Int) :
    s ≤ advStart ents s pos :=
  Nat.le_add_right s _

theorem advStart_le (ents : List ElemChunk) (s : Nat) (pos : Int)
    (h : s ≤ ents.length) : advStart ents s pos ≤ ents.length := by
  have h2 := takeWhile_len_le
    (fun ent => decide (pos > (ent.off : Int) + (ent.size : Int))) (ents.drop s)
  simp only [List.length_drop] at h2
  unfold advStart
  omega

theorem advStart_sat (ents : List ElemChunk) (s : Nat) (pos : Int) :
    ∀ (j : Nat) (ent : ElemChunk), s ≤ j → j < advStart ents s pos →
      ents[j]? = some ent → pos > (ent.off : Int) + ent.size := by
  intro j ent hsj hj hent
  have hk : j - s < ((ents.drop s).takeWhile
      (fun ent => decide (pos > (ent.off : Int) + (ent.size : Int)))).length := by
    unfold advStart at hj
    omega
  have hget : (ents.drop s)[j - s]? = some ent := by
    rw [List.getElem?_drop, Nat.add_sub_cancel' hsj]
    exact hent
  have := takeWhile_sat _ (ents.drop s) (j - s) ent hk hget
  exact of_decide_eq_true this

theorem advStart_stop (ents : List ElemChunk) (s : Nat) (pos : Int)
    (hs : s ≤ ents.length) (h : advStart ents s pos < ents.length) :
    ∃ ent, ents[advStart ents s pos]? = some ent
      ∧ ¬ pos > (ent.off : Int) + ent.size := by
  have hlt : ((ents.drop s).takeWhile
      (fun ent => decide (pos > (ent.off : Int) + (ent.size : Int)))).length
      < (ents.drop s).length := by
    simp only [List.length_drop]
    unfold advStart at h
    omega
  obtain ⟨ent, hget, hp⟩ := takeWhile_stop _ (ents.drop s) hlt
  refine ⟨ent, ?_, of_decide_eq_false hp⟩
  rw [List.getElem?_drop] at hget
  exact hget

theorem advEnd_ge (ents : List ElemChunk) (e : Nat) (x : Int) :
    e ≤ advEnd ents e x :=
  Nat.le_add_right e _

theorem advEnd_le (ents : List ElemChunk) (e : Nat) (x : Int)
    (h : e ≤ ents.length) : advEnd ents e x ≤ ents.length := by
  have h2 := takeWhile_len_le (fun ent => decide (x > (ent.off : Int))) (ents.drop e)
  simp only [List.length_drop] at h2
  unfold advEnd
  omega

theorem advEnd_sat (ents : List ElemChunk) (e : Nat) (x : Int) :
    ∀ (j : Nat) (ent : ElemChunk), e ≤ j → j < advEnd ents e x →
      ents[j]? = some ent → x > (ent.off : Int) := by
  intro j ent hej hj hent
  have hk : j - e < ((ents.drop e).takeWhile
      (fun ent => decide (x > (ent.off : Int)))).length := by
    unfold advEnd at hj
    omega
  have hget : (ents.drop e)[j - e]? = some ent := by
    rw [List.getElem?_drop, Nat.add_sub_cancel' hej]
    exact hent
  exact of_decide_eq_true (takeWhile_sat _ (ents.drop e) (j - e) ent hk hget)

theorem advEnd_stop (ents : List ElemChunk) (e : Nat) (x : Int)
    (hs : e ≤ ents.length) (h : advEnd ents e x < ents.length) :
    ∃ ent, ents[advEnd ents e x]? = some ent ∧ ¬ x > (ent.off : Int) := by
  have hlt : ((ents.drop e).takeWhile
      (fun ent => decide (x > (ent.off : Int)))).length < (ents.drop e).length := by
    simp only [List.length_drop]
    unfold advEnd at h
    omega
  obtain ⟨ent, hget, hp⟩ := takeWhile_stop _ (ents.drop e) hlt
  refine ⟨ent, ?_, of_decide_eq_false hp⟩
  rw [List.getElem?_drop] at hget
  exact hget

theorem fillOne_idx (block : List Char) (rs pos : Int) (ent : ElemChunk) :
    (fillOne block rs pos ent).idx = ent.idx := by
  simp only [fillOne]
  split <;> rfl

theorem fillOne_off (block : List Char) (rs pos : Int) (ent : ElemChunk) :
    (fillOne block rs pos ent).off = ent.off := by
  simp only [fillOne]
  split <;> rfl

theorem fillOne_size (block : List Char) (rs pos : Int) (ent : ElemChunk) :
    (fillOne block rs pos ent).size = ent.size := by
  simp only [fillOne]
  split <;> rfl

theorem fillWindow_getElem? (block : List Char) (rs pos : Int) (s e : Nat) :
    ∀ (l : List ElemChunk) (j0 j : Nat),
      (fillWindow block rs pos s e l j0)[j]?
        = (l[j]?).map
            (fun ent => if s ≤ j0 + j ∧ j0 + j < e then fillOne block rs pos ent else ent)
  | [], j0, j => by simp [fillWindow]
  | ent :: rest, j0, 0 => by simp [fillWindow]
  | ent :: rest, j0, j+1 => by
    simp only [fillWindow, List.getElem?_cons_succ]
    rw [fillWindow_getElem? block rs pos s e rest (j0+1) j]
    have hj : j0 + 1 + j = j0 + (j + 1) := by omega
    rw [hj]

theorem fillWindow_length (block : List Char) (rs pos : Int) (s e : Nat) :
    ∀ (l : List ElemChunk) (j0 : Nat),
      (fillWindow block rs pos s e l j0).length = l.length
  | [], _ => rfl
  | ent :: rest, j0 => by
    simp [fillWindow, fillWindow_length block rs pos s e rest (j0+1)]

/-! ### The per-entry effect of `fillOne` on reachable states -/

theorem entTarget_stable_past (body : List Char) (pos posB : Nat) (ent : ElemChunk)
    (h1 : ent.off + ent.size ≤ pos) (h2 : pos ≤ posB) :
    entTarget body posB ent = entTarget body pos ent := by
  unfold entTarget
  have e1 : min ent.size (pos - ent.off) = ent.size := by omega
  have e2 : min ent.size (posB - ent.off) = ent.size := by omega
  rw [e1, e2]

theorem entTarget_nil_future (body : List Char) (pos : Nat) (ent : ElemChunk)
    (h : pos ≤ ent.off) : entTarget body pos ent = [] := by
  unfold entTarget
  have h0 : pos - ent.off = 0 := by omega
  simp [h0]

theorem entTarget_length (body : List Char) (pos : Nat) (ent : ElemChunk)
    (h : pos ≤ body.length) :
    (entTarget body pos ent).length = min ent.size (pos - ent.off) := by
  unfold entTarget
  rw [List.length_take, List.length_drop]
  omega

/-- `fillOne`, written as an equation about the new `written` list. -/
theorem fillOne_written_eq (block : List Char) (rs pos : Int) (ent : ElemChunk) :
    (fillOne block rs pos ent).written
      = if 0 < min ((ent.size : Int) - (ent.written.length : Int))
            (rs - ((ent.off : Int) + (ent.written.length : Int) - pos)) then
          ent.written
            ++ (block.drop ((ent.off : Int) + (ent.written.length : Int) - pos).toNat).take
              (min ((ent.size : Int) - (ent.written.length : Int))
                (rs - ((ent.off : Int) + (ent.written.length : Int) - pos))).toNat
        else ent.written := by
  simp only [fillOne]
  split <;> rfl

/-- A window entry whose range has not begun (`pos ≤ off`): the block
covers its start, so `fillOne` writes the covered part of the range. -/
theorem fillOne_written_fresh (body : List Char) (pos len : Nat) (ent : ElemChunk)
    (hple : pos + len ≤ body.length)
    (hw : ent.written = entTarget body pos ent)
    (hO : pos ≤ ent.off)
    (hwin1 : ent.off < pos + len) :
    (fillOne ((body.drop pos).take len) (len : Int) (pos : Int) ent).written
      = entTarget body (pos + len) ent := by
  have hwnil : ent.written = [] := by
    rw [hw]
    exact entTarget_nil_future body pos ent hO
  rw [fillOne_written_eq, hwnil]
  simp only [List.length_nil, Nat.cast_zero, add_zero, sub_zero, List.nil_append]
  rcases Nat.eq_zero_or_pos ent.size with hS | hS
  · rw [if_neg]
    · unfold entTarget
      rw [hS]
      simp
    · rw [hS]
      simp [lt_min_iff]
  · rw [if_pos]
    · have hro : ((ent.off : Int) - (pos : Int)).toNat = ent.off - pos := by omega
      have hsn : (min ((ent.size : Int)) ((len : Int) - ((ent.off : Int) - (pos : Int)))).toNat
          = min ent.size (pos + len - ent.off) := by omega
      rw [hro, hsn]
      have hdt : (((body.drop pos).take len).drop (ent.off - pos))
          = (body.drop ent.off).take (len - (ent.off - pos)) := by
        rw [List.drop_take, List.drop_drop]
        have : pos + (ent.off - pos) = ent.off := by omega
        rw [this]
      rw [hdt, List.take_take]
      unfold entTarget
      have : min (min ent.size (pos + len - ent.off)) (len - (ent.off - pos))
          = min ent.size (pos + len - ent.off) := by omega
      rw [this]
    · rw [lt_min_iff]
      constructor
      · exact_mod_cast hS
      · omega

/-- A window entry whose range has begun (`off < pos`, still needing
bytes): `fillOne` extends the already covered part to the new
position. -/
theorem fillOne_written_begun (body : List Char) (pos len : Nat) (ent : ElemChunk)
    (hlen : 0 < len)
    (hple : pos + len ≤ body.length)
    (hw : ent.written = entTarget body pos ent)
    (hO : ent.off < pos)
    (hwin2 : pos ≤ ent.off + ent.size) :
    (fillOne ((body.drop pos).take len) (len : Int) (pos : Int) ent).written
      = entTarget body (pos + len) ent := by
  have hwlen : ent.written.length = pos - ent.off := by
    rw [hw, entTarget_length body pos ent (by omega)]
    omega
  have hcast : (ent.written.length : Int) = (pos : Int) - (ent.off : Int) := by
    rw [hwlen]
    omega
  rw [fillOne_written_eq, hcast]
  have hro : ((ent.off : Int) + ((pos : Int) - (ent.off : Int)) - (pos : Int)) = 0 := by ring
  rw [hro]
  rcases Nat.eq_or_lt_of_le hwin2 with hfull | hneed
  · -- the range is exactly exhausted at `pos`
    rw [if_neg]
    · rw [hw]
      rw [entTarget_stable_past body pos (pos + len) ent (by omega) (by omega)]
    · have : (ent.size : Int) - ((pos : Int) - (ent.off : Int)) = 0 := by omega
      rw [this]
      simp [lt_min_iff]
  · rw [if_pos]
    · have hsn : (min ((ent.size : Int) - ((pos : Int) - (ent.off : Int)))
          ((len : Int) - 0)).toNat = min (ent.size - (pos - ent.off)) len := by omega
      rw [hsn]
      simp only [Int.toNat_zero, List.drop_zero]
      rw [List.take_take]
      have hq : min (min (ent.size - (pos - ent.off)) len) len
          = min (ent.size - (pos - ent.off)) len := by omega
      rw [hq]
      have hwpos : ent.written = (body.drop ent.off).take (pos - ent.off) := by
        rw [hw]
        unfold entTarget
        have : min ent.size (pos - ent.off) = pos - ent.off := by omega
        rw [this]
      rw [hwpos]
      unfold entTarget
      have hsum : min ent.size (pos + len - ent.off)
          = (pos - ent.off) + min (ent.size - (pos - ent.off)) len := by omega
      rw [hsum, List.take_add, List.drop_drop]
      have : ent.off + (pos - ent.off) = pos := by omega
      rw [this]
    · rw [sub_zero, lt_min_iff]
      constructor <;> omega

/-- A window entry whose range is already fully past: `fillOne` changes
nothing and the target is stable. -/
theorem fillOne_noop_past (body : List Char) (pos len : Nat) (ent : ElemChunk)
    (hple : pos ≤ body.length)
    (hw : ent.written = entTarget body pos ent)
    (hpast : ent.off + ent.size < pos) :
    (fillOne ((body.drop pos).take len) (len : Int) (pos : Int) ent).written
      = entTarget body (pos + len) ent := by
  have hwlen : ent.written.length = ent.size := by
    rw [hw, entTarget_length body pos ent hple]
    omega
  rw [fillOne_written_eq]
  rw [if_neg]
  · rw [hw, entTarget_stable_past body pos (pos + len) ent (by omega) (by omega)]
  · rw [hwlen]
    have hz : (ent.size : Int) - (ent.size : Int) = 0 := by ring
    rw [hz]
    simp [lt_min_iff]

/-- `entTarget` only looks at the static fields. -/
theorem entTarget_statics (body : List Char) (p : Nat) (entA entB : ElemChunk)
    (h1 : entA.off = entB.off) (h2 : entA.size = entB.size) :
    entTarget body p entA = entTarget body p entB := by
  unfold entTarget
  rw [h1, h2]

/-- Entries of the filled window keep their index, offset and size. -/
theorem fillWindow_statics (block : List Char) (rs pos : Int) (s e : Nat)
    (l : List ElemChunk) (j : Nat) (ent2 : ElemChunk)
    (h : (fillWindow block rs pos s e l 0)[j]? = some ent2) :
    ∃ ent, l[j]? = some ent
      ∧ ent2.idx = ent.idx ∧ ent2.off = ent.off ∧ ent2.size = ent.size
      ∧ ent2 = (if s ≤ j ∧ j < e then fillOne block rs pos ent else ent) := by
  rw [fillWindow_getElem?] at h
  have hz : (0 : Nat) + j = j := by omega
  rw [hz] at h
  cases hl : l[j]? with
  | none =>
    rw [hl] at h
    simp at h
  | some ent =>
    rw [hl] at h
    simp only [Option.map_some', Option.some.injEq] at h
    refine ⟨ent, rfl, ?_, ?_, ?_, h.symm⟩ <;> rw [← h]
    · split <;> simp [fillOne_idx]
    · split <;> simp [fillOne_off]
    · split <;> simp [fillOne_size]

/-- One streaming step preserves the scatter invariant. -/
theorem simInv_step (body : List Char) (ents : List ElemChunk) (s e pos len : Nat)
    (hlen : 0 < len) (hple : pos + len ≤ body.length)
    (inv : SimInv body ents s e pos) :
    SimInv body
      (fillWindow ((body.drop pos).take len) (len : Int) (pos : Int)
        (advStart ents s (pos : Int)) (advEnd ents e ((pos + len : Nat) : Int)) ents 0)
      (advStart ents s (pos : Int)) (advEnd ents e ((pos + len : Nat) : Int))
      (pos + len) := by
  have hsl : s ≤ ents.length := le_trans inv.hse inv.hee
  have hs2ge := advStart_ge ents s (pos : Int)
  have hs2le := advStart_le ents s (pos : Int) hsl
  have he2ge := advEnd_ge ents e ((pos + len : Nat) : Int)
  have he2le := advEnd_le ents e ((pos + len : Nat) : Int) inv.hee
  -- every index below the new start cursor is fully past the old position
  have hpast : ∀ (j : Nat) (ent : ElemChunk), j < advStart ents s (pos : Int) →
      ents[j]? = some ent → ent.off + ent.size < pos := by
    intro j ent hj hent
    by_cases hjs : j < s
    · exact inv.hs j ent hjs hent
    · have := advStart_sat ents s (pos : Int) j ent (by omega) hj hent
      omega
  -- every index below the new end cursor has begun before the new position
  have hbegun : ∀ (j : Nat) (ent : ElemChunk), j < advEnd ents e ((pos + len : Nat) : Int) →
      ents[j]? = some ent → ent.off < pos + len := by
    intro j ent hj hent
    by_cases hje : j < e
    · have := inv.he2 j ent hje hent
      omega
    · have := advEnd_sat ents e ((pos + len : Nat) : Int) j ent (by omega) hj hent
      omega
  -- every index at or above the new end cursor has not begun at the new position
  have hfuture : ∀ (j : Nat) (ent : ElemChunk), advEnd ents e ((pos + len : Nat) : Int) ≤ j →
      ents[j]? = some ent → pos + len ≤ ent.off := by
    intro j ent hj hent
    have hjlen : j < ents.length := by
      by_contra hc
      rw [List.getElem?_eq_none (by omega)] at hent
      exact Option.noConfusion hent
    have he2lt : advEnd ents e ((pos + len : Nat) : Int) < ents.length := by omega
    obtain ⟨stopEnt, hstop, hstopP⟩ := advEnd_stop ents e ((pos + len : Nat) : Int) inv.hee he2lt
    have hstopOff : pos + len ≤ stopEnt.off := by omega
    rcases Nat.eq_or_lt_of_le hj with hje | hjlt
    · rw [← hje] at hent
      rw [hent] at hstop
      cases hstop
      exact hstopOff
    · have hsorted := List.pairwise_iff_getElem.mp inv.hsorted
      have hgetj : ents[j] = ent := by
        have := List.getElem?_eq_getElem hjlen (l := ents)
        rw [this] at hent
        exact (Option.some.injEq _ _).mp hent
      have hgete : ents[advEnd ents e ((pos + len : Nat) : Int)] = stopEnt := by
        have := List.getElem?_eq_getElem he2lt (l := ents)
        rw [this] at hstop
        exact (Option.some.injEq _ _).mp hstop
      have := hsorted (advEnd ents e ((pos + len : Nat) : Int)) j he2lt hjlen hjlt
      rw [hgetj, hgete] at this
      omega
  -- the start cursor never overtakes the end cursor
  have hs2e2 : advStart ents s (pos : Int) ≤ advEnd ents e ((pos + len : Nat) : Int) := by
    by_contra hc
    have he2lt : advEnd ents e ((pos + len : Nat) : Int) < ents.length := by omega
    have hent : ∃ ent, ents[advEnd ents e ((pos + len : Nat) : Int)]? = some ent := by
      rw [← Option.isSome_iff_exists]
      rw [List.getElem?_eq_getElem he2lt]
      rfl
    obtain ⟨ent, hent⟩ := hent
    have h1 := hpast (advEnd ents e ((pos + len : Nat) : Int)) ent (by omega) hent
    have h2 := inv.he (advEnd ents e ((pos + len : Nat) : Int)) ent he2ge hent
    omega
  refine ⟨by omega, ?_, ?_, ?_, ?_, hs2e2, ?_, ?_⟩
  · -- hw: every entry now holds the part covered by pos + len
    intro j ent2 h2
    obtain ⟨ent, hent, hidx, hoff, hsize, heq⟩ := fillWindow_statics _ _ _ _ _ ents j ent2 h2
    rw [entTarget_statics body (pos + len) ent2 ent hoff hsize]
    by_cases hwin : advStart ents s (pos : Int) ≤ j
        ∧ j < advEnd ents e ((pos + len : Nat) : Int)
    · rw [if_pos hwin] at heq
      rw [heq]
      by_cases hdone : ent.off + ent.size < pos
      · exact fillOne_noop_past body pos len ent (by omega) (inv.hw j ent hent) hdone
      · have hwin1 : ent.off < pos + len := hbegun j ent hwin.2 hent
        by_cases hfresh : pos ≤ ent.off
        · exact fillOne_written_fresh body pos len ent hple (inv.hw j ent hent) hfresh hwin1
        · exact fillOne_written_begun body pos len ent hlen hple (inv.hw j ent hent)
            (by omega) (by omega)
    · rw [if_neg hwin] at heq
      rw [heq]
      rw [inv.hw j ent hent]
      rcases Nat.lt_or_ge j (advStart ents s (pos : Int)) with hjs | hje
      · exact (entTarget_stable_past body pos (pos + len) ent
          (by have := hpast j ent hjs hent; omega) (by omega)).symm
      · have hje2 : advEnd ents e ((pos + len : Nat) : Int) ≤ j := by
          rcases not_and_or.mp hwin with hc | hc
          · omega
          · omega
        have hoff2 := hfuture j ent hje2 hent
        rw [entTarget_nil_future body pos ent (by omega),
          entTarget_nil_future body (pos + len) ent (by omega)]
  · -- hs
    intro j ent2 hj h2
    obtain ⟨ent, hent, _, hoff, hsize, _⟩ := fillWindow_statics _ _ _ _ _ ents j ent2 h2
    rw [hoff, hsize]
    have := hpast j ent hj hent
    omega
  · -- he
    intro j ent2 hj h2
    obtain ⟨ent, hent, _, hoff, _, _⟩ := fillWindow_statics _ _ _ _ _ ents j ent2 h2
    rw [hoff]
    exact hfuture j ent hj hent
  · -- he2
    intro j ent2 hj h2
    obtain ⟨ent, hent, _, hoff, _, _⟩ := fillWindow_statics _ _ _ _ _ ents j ent2 h2
    rw [hoff]
    exact hbegun j ent hj hent
  · -- hee
    rw [fillWindow_length]
    exact he2le
  · -- hsorted: the window fill preserves every offset
    rw [List.pairwise_iff_getElem]
    intro a b ha hb hab
    have hlen2 : (fillWindow ((body.drop pos).take len) (len : Int) (pos : Int)
        (advStart ents s (pos : Int)) (advEnd ents e ((pos + len : Nat) : Int)) ents 0).length
        = ents.length := fillWindow_length _ _ _ _ _ ents 0
    have ha1 : a < ents.length := by omega
    have hb1 : b < ents.length := by omega
    obtain ⟨entA, hentA, _, hoffA, _, _⟩ := fillWindow_statics _ _ _ _ _ ents a _
      (List.getElem?_eq_getElem ha)
    obtain ⟨entB, hentB, _, hoffB, _, _⟩ := fillWindow_statics _ _ _ _ _ ents b _
      (List.getElem?_eq_getElem hb)
    rw [List.getElem?_eq_getElem ha1] at hentA
    rw [List.getElem?_eq_getElem hb1] at hentB
    have hA : entA = ents[a] := ((Option.some.injEq _ _).mp hentA).symm
    have hB : entB = ents[b] := ((Option.some.injEq _ _).mp hentB).symm
    have := List.pairwise_iff_getElem.mp inv.hsorted a b ha1 hb1 hab
    rw [hoffA, hoffB, hA, hB]
    exact this

/-- Replacing `written` by the final slice only looks at the static
fields. -/
theorem finalize_congr (body : List Char) (a b : ElemChunk)
    (h1 : a.idx = b.idx) (h2 : a.off = b.off) (h3 : a.size = b.size) :
    ({ a with written := (body.drop a.off).take a.size } : ElemChunk)
      = { b with written := (body.drop b.off).take b.size } := by
  cases a
  cases b
  simp_all

/-- At the end of the stream the invariant gives the final slices. -/
theorem simInv_final (body : List Char) (ents : List ElemChunk) (s e pos : Nat)
    (hge : body.length ≤ pos) (inv : SimInv body ents s e pos) :
    ∀ j : Nat, ents[j]?
      = (ents[j]?).map
          (fun ent => { ent with written := (body.drop ent.off).take ent.size }) := by
  intro j
  cases hl : ents[j]? with
  | none => rfl
  | some ent =>
    have hposL : pos = body.length := by
      have := inv.hpos
      omega
    have hw := inv.hw j ent hl
    rw [hposL] at hw
    have hfin : entTarget body body.length ent = (body.drop ent.off).take ent.size := by
      unfold entTarget
      rw [List.take_eq_take]
      simp only [List.length_take, List.length_drop]
      omega
    rw [hfin] at hw
    simp only [Option.map_some', Option.some.injEq]
    cases ent with
    | mk idx off size written =>
      simp_all

/-- Main loop lemma: started from an invariant state with enough fuel, the
scatter loop leaves every entry holding exactly the available bytes of its
range. -/
theorem simLoop_correct (body : List Char) :
    ∀ (fuel : Nat) (ents : List ElemChunk) (s e pos : Nat),
      body.length - pos ≤ fuel → SimInv body ents s e pos →
      ∀ j : Nat,
        (simLoop fuel ents s e (pos : Int) (body.drop pos))[j]?
          = (ents[j]?).map
              (fun ent => { ent with written := (body.drop ent.off).take ent.size })
  | 0, ents, s, e, pos => by
    intro hfuel inv j
    simp only [simLoop]
    exact simInv_final body ents s e pos (by omega) inv j
  | fuel+1, ents, s, e, pos => by
    intro hfuel inv j
    by_cases hempty : body.length ≤ pos
    · have hnil : body.drop pos = [] := List.drop_eq_nil_of_le hempty
      simp only [simLoop, hnil, List.isEmpty_nil, if_true]
      exact simInv_final body ents s e pos hempty inv j
    · have hlt : pos < body.length := by omega
      have hBL : 0 < DAVIX_READ_BLOCK_SIZE := by decide
      have hlenN0 : 0 < min DAVIX_READ_BLOCK_SIZE (body.length - pos) := by omega
      have hlenN : ((body.drop pos).take DAVIX_READ_BLOCK_SIZE).length
          = min DAVIX_READ_BLOCK_SIZE (body.length - pos) := by
        simp [List.length_take, List.length_drop]
      have hblock : (body.drop pos).take DAVIX_READ_BLOCK_SIZE
          = (body.drop pos).take (min DAVIX_READ_BLOCK_SIZE (body.length - pos)) := by
        rw [List.take_eq_take]
        simp only [List.length_drop]
        omega
      have hne : ¬ (body.drop pos).isEmpty = true := by
        rw [List.isEmpty_iff]
        intro hc
        have := congrArg List.length hc
        simp only [List.length_drop, List.length_nil] at this
        omega
      simp only [simLoop]
      rw [if_neg hne]
      rw [hlenN, hblock]
      have hcast : (pos : Int) + ((min DAVIX_READ_BLOCK_SIZE (body.length - pos) : Nat) : Int)
          = (((pos + min DAVIX_READ_BLOCK_SIZE (body.length - pos)) : Nat) : Int) := by
        push_cast
        ring
      rw [hcast]
      have hstream : (body.drop pos).drop DAVIX_READ_BLOCK_SIZE
          = body.drop (pos + min DAVIX_READ_BLOCK_SIZE (body.length - pos)) := by
        rw [List.drop_drop]
        rcases Nat.le_total DAVIX_READ_BLOCK_SIZE (body.length - pos) with hc | hc
        · have : pos + DAVIX_READ_BLOCK_SIZE
              = pos + min DAVIX_READ_BLOCK_SIZE (body.length - pos) := by omega
          rw [this]
        · rw [List.drop_eq_nil_of_le (by omega), List.drop_eq_nil_of_le (by omega)]
      rw [hstream]
      have inv2 := simInv_step body ents s e pos (min DAVIX_READ_BLOCK_SIZE (body.length - pos))
        hlenN0 (by omega) inv
      rw [simLoop_correct body fuel _ _ _ _ (by omega) inv2 j]
      -- collapse the window fill through the final slices
      cases hl : ents[j]? with
      | none =>
        have hfn : (fillWindow ((body.drop pos).take (min DAVIX_READ_BLOCK_SIZE (body.length - pos)))
            ((min DAVIX_READ_BLOCK_SIZE (body.length - pos) : Nat) : Int) (pos : Int)
            (advStart ents s (pos : Int))
            (advEnd ents e (((pos + min DAVIX_READ_BLOCK_SIZE (body.length - pos)) : Nat) : Int))
            ents 0)[j]? = none := by
          rw [fillWindow_getElem?, hl]
          rfl
        rw [hfn]
      | some ent =>
        have hfn := fillWindow_getElem?
          ((body.drop pos).take (min DAVIX_READ_BLOCK_SIZE (body.length - pos)))
          ((min DAVIX_READ_BLOCK_SIZE (body.length - pos) : Nat) : Int) (pos : Int)
          (advStart ents s (pos : Int))
          (advEnd ents e (((pos + min DAVIX_READ_BLOCK_SIZE (body.length - pos)) : Nat) : Int))
          ents 0 j
        rw [hl] at hfn
        rw [hfn]
        simp only [Option.map_some', Option.some.injEq]
        split
        · exact finalize_congr body _ ent (fillOne_idx _ _ _ ent) (fillOne_off _ _ _ ent)
            (fillOne_size _ _ _ ent)
        · rfl

/-! ### The offset-ordered multimap -/

theorem insertUB_perm (x : ElemChunk) : ∀ l : List ElemChunk, (insertUB x l).Perm (x :: l)
  | [] => List.Perm.refl _
  | y :: ys => by
    simp only [insertUB]
    split
    · exact ((insertUB_perm x ys).cons y).trans (List.Perm.swap x y ys)
    · exact List.Perm.refl _

theorem foldl_insertUB_perm :
    ∀ (l acc : List ElemChunk),
      (l.foldl (fun m x => insertUB x m) acc).Perm (l ++ acc)
  | [], acc => by simp
  | x :: t, acc => by
    simp only [List.foldl_cons]
    refine (foldl_insertUB_perm t (insertUB x acc)).trans ?_
    refine (List.Perm.append_left t (insertUB_perm x acc)).trans ?_
    exact List.perm_middle

theorem insertUB_sorted (x : ElemChunk) :
    ∀ l : List ElemChunk, l.Pairwise (fun a b => a.off ≤ b.off) →
      (insertUB x l).Pairwise (fun a b => a.off ≤ b.off)
  | [] => by
    intro _
    simp [insertUB]
  | y :: ys => by
    intro h
    rw [List.pairwise_cons] at h
    simp only [insertUB]
    split
    · rename_i hyx
      rw [List.pairwise_cons]
      constructor
      · intro z hz
        rcases List.mem_cons.mp ((insertUB_perm x ys).mem_iff.mp hz) with hzx | hzys
        · rw [hzx]
          exact hyx
        · exact h.1 z hzys
      · exact insertUB_sorted x ys h.2
    · rename_i hyx
      rw [List.pairwise_cons]
      constructor
      · intro z hz
        rcases List.mem_cons.mp hz with hzy | hzys
        · rw [hzy]
          omega
        · have := h.1 z hzys
          omega
      · rw [List.pairwise_cons]
        exact h

theorem foldl_insertUB_sorted :
    ∀ (l acc : List ElemChunk), acc.Pairwise (fun a b => a.off ≤ b.off) →
      (l.foldl (fun m x => insertUB x m) acc).Pairwise (fun a b => a.off ≤ b.off)
  | [], acc => fun h => h
  | x :: t, acc => by
    intro h
    simp only [List.foldl_cons]
    exact foldl_insertUB_sorted t (insertUB x acc) (insertUB_sorted x acc h)

theorem fill_map_chunk_sorted (inputs : List DavIOVecInput) :
    (fill_map_chunk inputs).Pairwise (fun a b => a.off ≤ b.off) :=
  foldl_insertUB_sorted (mkChunks inputs 0) [] (by simp)

theorem fill_map_chunk_perm (inputs : List DavIOVecInput) :
    (fill_map_chunk inputs).Perm (mkChunks inputs 0) := by
  have := foldl_insertUB_perm (mkChunks inputs 0) []
  simpa using this

theorem mkChunks_written : ∀ (l : List DavIOVecInput) (k : Nat),
    ∀ ent ∈ mkChunks l k, ent.written = []
  | [], _ => by simp [mkChunks]
  | i :: t, k => by
    intro ent hent
    rcases List.mem_cons.mp hent with h | h
    · rw [h]
    · exact mkChunks_written t (k+1) ent h

theorem mkChunks_map_idx : ∀ (l : List DavIOVecInput) (k : Nat),
    (mkChunks l k).map ElemChunk.idx = List.range' k l.length
  | [], _ => by simp [mkChunks]
  | i :: t, k => by
    simp only [mkChunks, List.map_cons, List.length_cons, List.range'_succ]
    rw [mkChunks_map_idx t (k+1)]

theorem mkChunks_getElem? : ∀ (l : List DavIOVecInput) (k j : Nat) (i : DavIOVecInput),
    l[j]? = some i →
    (mkChunks l k)[j]? = some ⟨k + j, i.diov_offset, i.diov_size, []⟩
  | [], _, j, i => by simp
  | a :: t, k, 0, i => by
    intro h
    simp only [List.getElem?_cons_zero, Option.some.injEq] at h
    simp [mkChunks, h]
  | a :: t, k, j+1, i => by
    intro h
    simp only [List.getElem?_cons_succ] at h
    simp only [mkChunks, List.getElem?_cons_succ]
    rw [mkChunks_getElem? t (k+1) j i h]
    have : k + 1 + j = k + (j + 1) := by omega
    rw [this]

theorem mkChunks_map_fn {α : Type} (h : Nat → Nat → α) :
    ∀ (l : List DavIOVecInput) (k : Nat),
      (mkChunks l k).map (fun ent => h ent.off ent.size)
        = l.map (fun i => h i.diov_offset i.diov_size)
  | [], _ => rfl
  | i :: t, k => by
    simp only [mkChunks, List.map_cons]
    rw [mkChunks_map_fn h t (k+1)]

/-- The initial scatter state satisfies the invariant at position 0. -/
theorem simInv_init (body : List Char) (inputs : List DavIOVecInput) :
    SimInv body (fill_map_chunk inputs) 0 0 0 := by
  refine ⟨Nat.zero_le _, ?_, ?_, ?_, ?_, Nat.le_refl 0, Nat.zero_le _,
    fill_map_chunk_sorted inputs⟩
  · intro j ent h
    have hmem : ent ∈ fill_map_chunk inputs := by
      rw [List.mem_iff_getElem?]
      exact ⟨j, h⟩
    have hmem2 : ent ∈ mkChunks inputs 0 := (fill_map_chunk_perm inputs).mem_iff.mp hmem
    rw [entTarget_nil_future body 0 ent (Nat.zero_le _)]
    exact mkChunks_written inputs 0 ent hmem2
  · intro j ent hj
    omega
  · intro j ent _ _
    exact Nat.zero_le _
  · intro j ent hj
    omega

/-- The final entry map, pointwise. -/
theorem scatter_final_getElem? (body : List Char) (inputs : List DavIOVecInput) (j : Nat) :
    (simLoop (body.length + 1) (fill_map_chunk inputs) 0 0 0 body)[j]?
      = ((fill_map_chunk inputs)[j]?).map
          (fun ent => { ent with written := (body.drop ent.off).take ent.size }) := by
  have h := simLoop_correct body (body.length + 1) (fill_map_chunk inputs) 0 0 0
    (by omega) (simInv_init body inputs) j
  simpa using h

/-- The final entries keep the index multiset of the inputs, without
duplicates. -/
theorem scatter_final_idx_nodup (body : List Char) (inputs : List DavIOVecInput) :
    ((simLoop (body.length + 1) (fill_map_chunk inputs) 0 0 0 body).map ElemChunk.idx).Nodup := by
  have hmapeq : (simLoop (body.length + 1) (fill_map_chunk inputs) 0 0 0 body).map ElemChunk.idx
      = (fill_map_chunk inputs).map ElemChunk.idx := by
    apply List.ext_getElem?
    intro j
    rw [List.getElem?_map, List.getElem?_map, scatter_final_getElem? body inputs j]
    cases (fill_map_chunk inputs)[j]? <;> rfl
  rw [hmapeq]
  have hperm := (fill_map_chunk_perm inputs).map ElemChunk.idx
  rw [List.Perm.nodup_iff hperm, mkChunks_map_idx]
  exact List.nodup_range' _ _

/-- Resolution of `chunkFor`: the entry found for index `k` holds exactly
the available bytes of input `k`'s range. -/
theorem scatter_chunkFor (body : List Char) (inputs : List DavIOVecInput)
    (k : Nat) (i : DavIOVecInput) (hk : inputs[k]? = some i) :
    chunkFor (simLoop (body.length + 1) (fill_map_chunk inputs) 0 0 0 body) k
      = (body.drop i.diov_offset).take i.diov_size := by
  have hmk : (mkChunks inputs 0)[k]? = some ⟨k, i.diov_offset, i.diov_size, []⟩ := by
    have := mkChunks_getElem? inputs 0 k i hk
    simpa using this
  have hmem : (⟨k, i.diov_offset, i.diov_size, []⟩ : ElemChunk) ∈ mkChunks inputs 0 := by
    rw [List.mem_iff_getElem?]
    exact ⟨k, hmk⟩
  have hmemC : (⟨k, i.diov_offset, i.diov_size, []⟩ : ElemChunk) ∈ fill_map_chunk inputs :=
    (fill_map_chunk_perm inputs).mem_iff.mpr hmem
  obtain ⟨j, hj⟩ := List.mem_iff_getElem?.mp hmemC
  have hfin : (simLoop (body.length + 1) (fill_map_chunk inputs) 0 0 0 body)[j]?
      = some ⟨k, i.diov_offset, i.diov_size, (body.drop i.diov_offset).take i.diov_size⟩ := by
    rw [scatter_final_getElem? body inputs j, hj]
    rfl
  have hmemF : (⟨k, i.diov_offset, i.diov_size,
      (body.drop i.diov_offset).take i.diov_size⟩ : ElemChunk)
      ∈ simLoop (body.length + 1) (fill_map_chunk inputs) 0 0 0 body := by
    rw [List.mem_iff_getElem?]
    exact ⟨j, hfin⟩
  unfold chunkFor
  cases hfind : (simLoop (body.length + 1) (fill_map_chunk inputs) 0 0 0 body).find?
      (fun ent => ent.idx == k) with
  | none =>
    exfalso
    have : ((simLoop (body.length + 1) (fill_map_chunk inputs) 0 0 0 body).find?
        (fun ent => ent.idx == k)).isSome := by
      rw [List.find?_isSome]
      exact ⟨_, hmemF, by simp⟩
    rw [hfind] at this
    exact Bool.noConfusion this
  | some entG =>
    have hGmem := List.mem_of_find?_eq_some hfind
    have hGidx : entG.idx = k := by
      have := List.find?_some hfind
      simpa using this
    have := scatter_final_idx_nodup body inputs
    have hEq := List.inj_on_of_nodup_map this hGmem hmemF (by rw [hGidx])
    rw [hEq]

theorem outputsOf_length : ∀ (l : List DavIOVecInput) (ents : List ElemChunk) (k0 : Nat),
    (outputsOf l ents k0).length = l.length
  | [], _, _ => rfl
  | i :: t, ents, k0 => by
    simp [outputsOf, outputsOf_length t ents (k0+1)]

theorem outputsOf_getElem? :
    ∀ (l : List DavIOVecInput) (ents : List ElemChunk) (k0 j : Nat) (i : DavIOVecInput),
      l[j]? = some i →
      (outputsOf l ents k0)[j]?
        = some ⟨some i.diov_buffer, ((chunkFor ents (k0 + j)).length : Int),
            chunkFor ents (k0 + j)⟩
  | [], _, _, j, i => by simp
  | a :: t, ents, k0, 0, i => by
    intro h
    simp only [List.getElem?_cons_zero, Option.some.injEq] at h
    subst h
    simp [outputsOf]
  | a :: t, ents, k0, j+1, i => by
    intro h
    simp only [List.getElem?_cons_succ] at h
    simp only [outputsOf, List.getElem?_cons_succ]
    rw [outputsOf_getElem? t ents (k0+1) j i h]
    have hz : k0 + 1 + j = k0 + (j + 1) := by omega
    rw [hz]

theorem foldl_add_written : ∀ (l : List ElemChunk) (a : Int),
    l.foldl (fun acc ent => acc + (ent.written.length : Int)) a
      = a + (l.map (fun ent => (ent.written.length : Int))).sum
  | [], a => by simp
  | x :: t, a => by
    simp only [List.foldl_cons, List.map_cons, List.sum_cons]
    rw [foldl_add_written t (a + (x.written.length : Int))]
    ring

theorem scatter_sum (body : List Char) (inputs : List DavIOVecInput) :
    sum_all_chunk_size (simLoop (body.length + 1) (fill_map_chunk inputs) 0 0 0 body)
      = (inputs.map
          (fun i => (((body.drop i.diov_offset).take i.diov_size).length : Int))).sum := by
  unfold sum_all_chunk_size
  rw [foldl_add_written]
  simp only [zero_add]
  have hmap : (simLoop (body.length + 1) (fill_map_chunk inputs) 0 0 0 body).map
      (fun ent => (ent.written.length : Int))
      = (fill_map_chunk inputs).map
          (fun ent => (((body.drop ent.off).take ent.size).length : Int)) := by
    apply List.ext_getElem?
    intro j
    rw [List.getElem?_map, List.getElem?_map, scatter_final_getElem? body inputs j]
    cases (fill_map_chunk inputs)[j]? <;> rfl
  rw [hmap]
  have hperm := (fill_map_chunk_perm inputs).map
    (fun ent => (((body.drop ent.off).take ent.size).length : Int))
  rw [hperm.sum_eq]
  rw [mkChunks_map_fn (fun o sz => (((body.drop o).take sz).length : Int)) inputs 0]

/-! ### Claim C9 -/

/-- **C9 (confirmed).**  Full-body scatter correctness: for every input
list (overlapping and out-of-order ranges included) and every body, each
output aliases its input's buffer and holds exactly the streamed body's
bytes at `[offset, offset + written)` where
`written = min(size, bytes available at offset)` — that is, the list
`(body.drop offset).take size` — independently of all other entries, and
the returned value is the sum of the bytes written over all entries. -/
theorem c9_full_body_scatter (r : Response) (inputs : List DavIOVecInput) :
    (simulateMultiPartRequest r inputs).2.length = inputs.length
    ∧ (∀ (k : Nat) (i : DavIOVecInput), inputs[k]? = some i →
        (simulateMultiPartRequest r inputs).2[k]?
          = some ⟨some i.diov_buffer,
              (((r.body.drop i.diov_offset).take i.diov_size).length : Int),
              (r.body.drop i.diov_offset).take i.diov_size⟩)
    ∧ (simulateMultiPartRequest r inputs).1
        = (inputs.map
            (fun i => (((r.body.drop i.diov_offset).take i.diov_size).length : Int))).sum := by
  refine ⟨?_, ?_, ?_⟩
  · simp only [simulateMultiPartRequest]
    exact outputsOf_length inputs _ 0
  · intro k i hk
    simp only [simulateMultiPartRequest]
    rw [outputsOf_getElem? inputs _ 0 k i hk]
    have hz : (0 : Nat) + k = k := by omega
    rw [hz, scatter_chunkFor r.body inputs k i hk]
  · simp only [simulateMultiPartRequest]
    exact scatter_sum r.body inputs

/-- Witness for C9 at scenario 2: the 30-byte 200 body scattered into the
three ranges gives "KLMN" for the middle range and 12 bytes in total. -/
theorem c9_full_body_scatter_witness :
    (simulateMultiPartRequest smallResp cleanInputs).2[1]?
      = some ⟨some 1, 4, ("KLMN").data⟩
    ∧ (simulateMultiPartRequest smallResp cleanInputs).1 = 12 := by
  have h := c9_full_body_scatter smallResp cleanInputs
  constructor
  · rw [h.2.1 1 ⟨10, 4, 1⟩ (by decide)]
    decide
  · rw [h.2.2]
    decide

/-! ### Buffer aliasing groundwork (claim C10) -/

theorem copyChunk_ok_buffer (s : List Char) (i : DavIOVecInput) (o : DavIOVecOuput)
    (h : 0 ≤ (copyChunk s i o).ret) :
    (copyChunk s i o).out.diov_buffer = some i.diov_buffer := by
  by_cases hz : i.diov_size = 0
  · cases hr : readSegment 1 s with
    | none =>
      unfold copyChunk at h
      rw [if_pos hz, hr] at h
      simp at h
    | some pair =>
      unfold copyChunk
      rw [if_pos hz, hr]
  · cases hr : readSegment i.diov_size s with
    | none =>
      unfold copyChunk at h
      rw [if_neg hz, hr] at h
      simp at h
    | some pair =>
      unfold copyChunk
      rw [if_neg hz, hr]

theorem parseMPLoop_outs_len (boundary : List Char) :
    ∀ (pairs : List (DavIOVecInput × DavIOVecOuput)) (s : List Char) (acc : Int),
      (parseMPLoop boundary pairs s acc).outs.length = pairs.length
  | [], _, _ => rfl
  | (i, o) :: rest, s, acc => by
    simp only [parseMPLoop]
    split
    · simp
    · split
      · simp
      · split
        · simp
        · split
          · simp
          · simp [parseMPLoop_outs_len boundary rest _ _]

theorem parseMPLoop_aliased (boundary : List Char) :
    ∀ (pairs : List (DavIOVecInput × DavIOVecOuput)) (s : List Char) (acc : Int),
      0 ≤ acc → ¬ (parseMPLoop boundary pairs s acc).ret = -1 →
      (parseMPLoop boundary pairs s acc).outs.map DavIOVecOuput.diov_buffer
        = pairs.map (fun p => some p.1.diov_buffer)
  | [], _, _ => by
    intro _ _
    rfl
  | (i, o) :: rest, s, acc => by
    intro hacc hret
    have hcases := parseMPHFuel_code_cases boundary (102 - 0) s {} 0 none
    simp only [parseMPLoop] at hret ⊢
    by_cases hc : (parse_multi_part_header boundary s {} 0 none).code < 0
    · rw [if_pos hc] at hret
      exact absurd rfl hret
    · have hcode0 : (parse_multi_part_header boundary s {} 0 none).code = 0 := by
        unfold parse_multi_part_header
        rcases hcases with h0 | h1
        · exact h0
        · exfalso
          apply hc
          unfold parse_multi_part_header
          omega
      have hterm := parse_header_ok_size_pos boundary s {} 0 none hcode0
      have htermC : ¬((parse_multi_part_header boundary s {} 0 none).info.offset = 0
          ∧ (parse_multi_part_header boundary s {} 0 none).info.size = 0
          ∧ (parse_multi_part_header boundary s {} 0 none).info.bounded = true) :=
        fun hx => hterm ⟨hx.1, hx.2.1⟩
      rw [if_neg hc, if_neg htermC] at hret ⊢
      by_cases hmis : i.diov_size ≠ 0
          ∧ ((parse_multi_part_header boundary s {} 0 none).info.offset ≠ i.diov_offset
            ∨ (parse_multi_part_header boundary s {} 0 none).info.size ≠ i.diov_size)
      · rw [if_pos hmis] at hret
        exact absurd rfl hret
      · rw [if_neg hmis] at hret ⊢
        by_cases hcc : (copyChunk (parse_multi_part_header boundary s {} 0 none).rest i o).ret < 0
        · rw [if_pos hcc] at hret
          exact absurd rfl hret
        · rw [if_neg hcc] at hret ⊢
          dsimp only at hret ⊢
          simp only [List.map_cons]
          rw [parseMPLoop_aliased boundary rest _ _ (by omega) hret,
            copyChunk_ok_buffer _ i o (by omega)]

theorem parseMultipartRequest_outs_len (r : Response)
    (pairs : List (DavIOVecInput × DavIOVecOuput)) :
    (parseMultipartRequest r pairs).outs.length = pairs.length := by
  unfold parseMultipartRequest
  split
  · simp
  · exact parseMPLoop_outs_len _ pairs r.body 0

theorem parseMultipartRequest_aliased (r : Response)
    (pairs : List (DavIOVecInput × DavIOVecOuput))
    (h : ¬ (parseMultipartRequest r pairs).ret = -1) :
    (parseMultipartRequest r pairs).outs.map DavIOVecOuput.diov_buffer
      = pairs.map (fun p => some p.1.diov_buffer) := by
  unfold parseMultipartRequest at h ⊢
  split at h
  · simp at h
  · exact parseMPLoop_aliased _ pairs r.body 0 (by omega) h

theorem splice_getElem? (outs : List DavIOVecOuput) (p : Nat) (seg : List DavIOVecOuput)
    (hp : p ≤ outs.length) (k : Nat) :
    (splice outs p seg)[k]?
      = if k < p then outs[k]?
        else if k < p + seg.length then seg[k - p]?
        else outs[k]? := by
  have hlt : (outs.take p).length = p := List.length_take_of_le hp
  have hlen2 : (outs.take p ++ seg).length = p + seg.length := by
    simp [List.length_append, hlt]
  unfold splice
  rw [List.getElem?_append, hlen2]
  by_cases h1 : k < p
  · have h2 : k < p + seg.length := by omega
    rw [if_pos h2, List.getElem?_append, hlt, if_pos h1, List.getElem?_take]
    simp [h1]
  · by_cases h2 : k < p + seg.length
    · rw [if_pos h2, List.getElem?_append, hlt, if_neg h1]
      simp [h1, h2]
    · rw [if_neg h2, List.getElem?_drop]
      have hk : p + seg.length + (k - (p + seg.length)) = k := by omega
      rw [hk]
      simp [h1, h2]

theorem splice_length (outs : List DavIOVecOuput) (p : Nat) (seg : List DavIOVecOuput)
    (hp : p + seg.length ≤ outs.length) :
    (splice outs p seg).length = outs.length := by
  unfold splice
  simp only [List.length_append, List.length_drop]
  rw [List.length_take_of_le (by omega)]
  omega

theorem map_buffer_pointwise (inputs : List DavIOVecInput) (outs : List DavIOVecOuput)
    (h : outs.map DavIOVecOuput.diov_buffer = inputs.map (fun i => some i.diov_buffer)) :
    ∀ (k : Nat) (i : DavIOVecInput), inputs[k]? = some i →
      ∃ o, outs[k]? = some o ∧ o.diov_buffer = some i.diov_buffer := by
  intro k i hk
  have h2 : (outs.map DavIOVecOuput.diov_buffer)[k]?
      = (inputs.map (fun i => some i.diov_buffer))[k]? := by rw [h]
  rw [List.getElem?_map, List.getElem?_map, hk] at h2
  cases ho : outs[k]? with
  | none =>
    rw [ho] at h2
    simp at h2
  | some o =>
    rw [ho] at h2
    simp only [Option.map_some', Option.some.injEq] at h2
    exact ⟨o, rfl, h2⟩

theorem grhGo_sum (budget : Nat) : ∀ (l : List (Nat × Nat)) (cnt : Nat) (cur : String),
    sumCounts (grhGo budget l cnt cur) = cnt + l.length
  | [], cnt, cur => by
    simp only [grhGo]
    split
    · rename_i h
      simp [sumCounts, h]
    · simp [sumCounts]
  | p :: rest, cnt, cur => by
    simp only [grhGo]
    split
    · rename_i h
      rw [grhGo_sum budget rest 1 _]
      simp [h]
      omega
    · split
      · rw [grhGo_sum budget rest (cnt+1) _]
        simp
        omega
      · simp only [sumCounts, List.map_cons, List.sum_cons]
        have := grhGo_sum budget rest 1 (rangeStr p)
        unfold sumCounts at this
        rw [this]
        simp
        omega

theorem generateRangeHeaders_sum (budget : Nat) (ranges : List (Nat × Nat)) :
    sumCounts (generateRangeHeaders budget ranges) = ranges.length := by
  unfold generateRangeHeaders
  rw [grhGo_sum budget ranges 0 ""]
  omega

theorem performLoop_aliased (env : Env) (inputs : List DavIOVecInput) (btr : Int) :
    ∀ (batches : List (Nat × String)) (p : Nat) (ret tmp : Int)
      (outs : List DavIOVecOuput) (evs : List Event),
      outs.length = inputs.length →
      sumCounts batches + p = inputs.length →
      (∀ (k : Nat) (i : DavIOVecInput), k < p → inputs[k]? = some i →
        ∃ o, outs[k]? = some o ∧ o.diov_buffer = some i.diov_buffer) →
      (performLoop env inputs btr batches p ret tmp outs evs).err = none →
      ((performLoop env inputs btr batches p ret tmp outs evs).res = OpResult.SUCCESS
        ∨ (performLoop env inputs btr batches p ret tmp outs evs).res
            = OpResult.SUCCESS_BUT_NO_MULTIRANGE) →
      (performLoop env inputs btr batches p ret tmp outs evs).outs.length = inputs.length
      ∧ ∀ (k : Nat) (i : DavIOVecInput), inputs[k]? = some i →
          ∃ o, (performLoop env inputs btr batches p ret tmp outs evs).outs[k]? = some o
            ∧ o.diov_buffer = some i.diov_buffer
  | [], p, ret, tmp, outs, evs => by
    intro hlen hsum hpre herr hres
    simp only [performLoop]
    have hp : p = inputs.length := by
      simp [sumCounts] at hsum
      omega
    refine ⟨hlen, ?_⟩
    intro k i hk
    have hklt : k < inputs.length := by
      by_contra hcon
      rw [List.getElem?_eq_none (by omega)] at hk
      exact Option.noConfusion hk
    exact hpre k i (by omega) hk
  | (cnt, hdr) :: batches, p, ret, tmp, outs, evs => by
    intro hlen hsum hpre herr hres
    have hsum2 : cnt + sumCounts batches + p = inputs.length := by
      simp only [sumCounts, List.map_cons, List.sum_cons] at hsum
      simp only [sumCounts]
      omega
    by_cases hc1 : cnt = 1
    · have hplt : p < inputs.length := by omega
      have hi0 : inputs[p]? = some (inputs[p]) := List.getElem?_eq_getElem hplt
      have hmatch : performLoop env inputs btr ((cnt, hdr) :: batches) p ret tmp outs evs
          = performLoop env inputs btr batches (p + 1)
              (ret + (singleRangeRequest env (inputs[p])).1) tmp
              (splice outs p [(singleRangeRequest env (inputs[p])).2])
              (evs ++ [Event.pread (inputs[p]).diov_offset (inputs[p]).diov_size]) := by
        simp only [performLoop]
        rw [if_pos hc1, List.head?_drop, hi0]
      rw [hmatch] at herr hres ⊢
      have hlen1 : (splice outs p [(singleRangeRequest env (inputs[p])).2]).length
          = inputs.length := by
        rw [splice_length outs p _ (by simp; omega)]
        exact hlen
      refine performLoop_aliased env inputs btr batches (p+1) _ _ _ _ hlen1 (by omega)
        ?_ herr hres
      intro k i hk hik
      rw [splice_getElem? outs p _ (by omega) k]
      by_cases hkp : k < p
      · rw [if_pos hkp]
        exact hpre k i hkp hik
      · have hkp2 : k = p := by omega
        subst hkp2
        have hieq : i = inputs[k] := by
          rw [hik] at hi0
          exact (Option.some.injEq _ _).mp hi0
        rw [if_neg hkp, if_pos (by simp)]
        refine ⟨(singleRangeRequest env (inputs[k])).2, by simp, ?_⟩
        rw [hieq]
        rfl
    · by_cases h206 : (env.server hdr).retcode = 206
      · by_cases hm1 : (parseMultipartRequest (env.server hdr)
            ((inputs.drop p).zip (outs.drop p))).ret = -1
        · exfalso
          have hmatch : performLoop env inputs btr ((cnt, hdr) :: batches) p ret tmp outs evs
              = ⟨.NOMULTIRANGE,
                  (parseMultipartRequest (env.server hdr)
                    ((inputs.drop p).zip (outs.drop p))).ret,
                  splice outs p (parseMultipartRequest (env.server hdr)
                    ((inputs.drop p).zip (outs.drop p))).outs,
                  evs ++ [Event.get hdr],
                  (parseMultipartRequest (env.server hdr)
                    ((inputs.drop p).zip (outs.drop p))).err⟩ := by
            simp only [performLoop]
            rw [if_neg hc1, if_pos h206, if_pos hm1]
          rw [hmatch] at hres
          simp at hres
        · have hmatch : performLoop env inputs btr ((cnt, hdr) :: batches) p ret tmp outs evs
              = performLoop env inputs btr batches (p + cnt)
                  ((parseMultipartRequest (env.server hdr)
                    ((inputs.drop p).zip (outs.drop p))).ret + tmp) tmp
                  (splice outs p (parseMultipartRequest (env.server hdr)
                    ((inputs.drop p).zip (outs.drop p))).outs)
                  (evs ++ [Event.get hdr]) := by
            simp only [performLoop]
            rw [if_neg hc1, if_pos h206, if_neg hm1]
          rw [hmatch] at herr hres ⊢
          have hzlen : ((inputs.drop p).zip (outs.drop p)).length = inputs.length - p := by
            rw [List.length_zip]
            simp [hlen]
          have hselen : (parseMultipartRequest (env.server hdr)
              ((inputs.drop p).zip (outs.drop p))).outs.length = inputs.length - p := by
            rw [parseMultipartRequest_outs_len, hzlen]
          have hlen2 : (splice outs p (parseMultipartRequest (env.server hdr)
              ((inputs.drop p).zip (outs.drop p))).outs).length = inputs.length := by
            rw [splice_length outs p _ (by omega)]
            exact hlen
          have hseg : (parseMultipartRequest (env.server hdr)
              ((inputs.drop p).zip (outs.drop p))).outs.map DavIOVecOuput.diov_buffer
              = (inputs.drop p).map (fun i => some i.diov_buffer) := by
            rw [parseMultipartRequest_aliased _ _ hm1]
            have hfst := List.map_fst_zip (inputs.drop p) (outs.drop p) (by simp [hlen])
            calc ((inputs.drop p).zip (outs.drop p)).map (fun q => some q.1.diov_buffer)
                = (((inputs.drop p).zip (outs.drop p)).map Prod.fst).map
                    (fun i => some i.diov_buffer) := by
                  rw [List.map_map]
                  rfl
              _ = (inputs.drop p).map (fun i => some i.diov_buffer) := by rw [hfst]
          refine performLoop_aliased env inputs btr batches (p+cnt) _ _ _ _ hlen2 (by omega)
            ?_ herr hres
          intro k i hk hik
          rw [splice_getElem? outs p _ (by omega) k]
          by_cases hkp : k < p
          · rw [if_pos hkp]
            exact hpre k i hkp hik
          · have hklen : k < inputs.length := by
              by_contra hcon
              rw [List.getElem?_eq_none (by omega)] at hik
              exact Option.noConfusion hik
            rw [if_neg hkp, if_pos (by omega)]
            refine map_buffer_pointwise (inputs.drop p) _ hseg (k - p) i ?_
            rw [List.getElem?_drop, Nat.add_sub_cancel' (Nat.le_of_not_lt hkp)]
            exact hik
      · by_cases h200 : (env.server hdr).retcode = 200
        · by_cases hguard : (env.server hdr).answerSize > 1000000
              ∧ (env.server hdr).answerSize > 2 * btr
          · exfalso
            have hmatch : performLoop env inputs btr ((cnt, hdr) :: batches) p ret tmp outs evs
                = ⟨.NOMULTIRANGE, ret, outs, evs ++ [Event.get hdr], none⟩ := by
              simp only [performLoop]
              rw [if_neg hc1, if_neg h206, if_pos h200, if_pos hguard]
            rw [hmatch] at hres
            simp at hres
          · have hmatch : performLoop env inputs btr ((cnt, hdr) :: batches) p ret tmp outs evs
                = ⟨.SUCCESS_BUT_NO_MULTIRANGE,
                    (simulateMultiPartRequest (env.server hdr) inputs).1,
                    (simulateMultiPartRequest (env.server hdr) inputs).2,
                    evs ++ [Event.get hdr], none⟩ := by
              simp only [performLoop]
              rw [if_neg hc1, if_neg h206, if_pos h200, if_neg hguard]
            rw [hmatch]
            constructor
            · simp only [simulateMultiPartRequest]
              exact outputsOf_length inputs _ 0
            · intro k i hik
              simp only [simulateMultiPartRequest]
              rw [outputsOf_getElem? inputs _ 0 k i hik]
              exact ⟨_, rfl, rfl⟩
        · exfalso
          have hmatch : performLoop env inputs btr ((cnt, hdr) :: batches) p ret tmp outs evs
              = ⟨.SUCCESS, -1, outs, evs ++ [Event.get hdr],
                  some (.httpCode (env.server hdr).retcode)⟩ := by
            simp only [performLoop]
            rw [if_neg hc1, if_neg h206, if_neg h200]
          rw [hmatch] at herr
          simp at herr

/-! ### Claim C10 -/

/-- **C10 (confirmed).**  Buffer-aliasing invariant: whenever `preadVec`
completes (returns a byte count rather than raising a `DavixError`), the
outputs are in 1:1 index correspondence with the inputs and every output
descriptor's buffer aliases the corresponding input's buffer — on the
single-range fallback, the multipart 206 path and the full-body 200 path
alike. -/
theorem c10_buffer_aliasing (env : Env) (inputs : List DavIOVecInput) (v : Int)
    (h : (preadVec env inputs).result = .ok v) :
    (preadVec env inputs).outs.length = inputs.length
    ∧ ∀ (k : Nat) (i : DavIOVecInput), inputs[k]? = some i →
        ∃ o, (preadVec env inputs).outs[k]? = some o
          ∧ o.diov_buffer = some i.diov_buffer := by
  by_cases h0 : inputs.length = 0
  · have hnil : inputs = [] := List.length_eq_zero.mp h0
    subst hnil
    constructor
    · simp [preadVec]
    · intro k i hik
      simp at hik
  · by_cases h1 : inputs.length = 1 ∨ env.fragMultirange = "false"
    · have hv : preadVec env inputs
        = ⟨.ok (simulateMultirange env inputs).1, (simulateMultirange env inputs).2.1,
            (simulateMultirange env inputs).2.2⟩ := by
        simp [preadVec, h0, h1]
      rw [hv]
      have hmap := simulateMultirange_outs env inputs
      constructor
      · have := congrArg List.length hmap
        simpa using this
      · exact map_buffer_pointwise inputs _ hmap
    · have hperf : performMultirange env inputs (inputs.map (fun _ => ({} : DavIOVecOuput)))
        = performLoop env inputs
            (inputs.foldl (fun a i => a + (i.diov_size : Int)) 0)
            (generateRangeHeaders 3900 (inputs.map davIOVecProvider)) 0 0 (-1)
            (inputs.map (fun _ => ({} : DavIOVecOuput))) [] := rfl
      cases herr : (performMultirange env inputs
          (inputs.map (fun _ => ({} : DavIOVecOuput)))).err with
      | some e =>
        exfalso
        rw [show preadVec env inputs
            = ⟨.error e,
                (performMultirange env inputs (inputs.map (fun _ => ({} : DavIOVecOuput)))).outs,
                (performMultirange env inputs
                  (inputs.map (fun _ => ({} : DavIOVecOuput)))).events⟩ from by
          simp only [preadVec]
          rw [if_neg h0, if_neg h1, herr]] at h
        exact Except.noConfusion h
      | none =>
        by_cases hres : (performMultirange env inputs
              (inputs.map (fun _ => ({} : DavIOVecOuput)))).res = OpResult.SUCCESS
            ∨ (performMultirange env inputs
              (inputs.map (fun _ => ({} : DavIOVecOuput)))).res
                = OpResult.SUCCESS_BUT_NO_MULTIRANGE
        · have hv : preadVec env inputs
            = ⟨.ok (performMultirange env inputs
                  (inputs.map (fun _ => ({} : DavIOVecOuput)))).size_bytes,
                (performMultirange env inputs (inputs.map (fun _ => ({} : DavIOVecOuput)))).outs,
                (performMultirange env inputs
                  (inputs.map (fun _ => ({} : DavIOVecOuput)))).events⟩ := by
            simp only [preadVec]
            rw [if_neg h0, if_neg h1, herr, if_pos hres]
          rw [hv]
          rw [hperf] at herr hres ⊢
          exact performLoop_aliased env inputs _ _ 0 0 (-1) _ []
            (by simp) (by rw [generateRangeHeaders_sum]; simp) (by omega) herr hres
        · have hv : preadVec env inputs
            = ⟨.ok (simulateMultirange env inputs).1, (simulateMultirange env inputs).2.1,
                (performMultirange env inputs
                  (inputs.map (fun _ => ({} : DavIOVecOuput)))).events
                  ++ (simulateMultirange env inputs).2.2⟩ := by
            simp only [preadVec]
            rw [if_neg h0, if_neg h1, herr, if_neg hres]
          rw [hv]
          have hmap := simulateMultirange_outs env inputs
          constructor
          · have := congrArg List.length hmap
            simpa using this
          · exact map_buffer_pointwise inputs _ hmap

set_option maxRecDepth 8192 in
/-- Witness for C10 at the clean multipart scenario: the completed call
yields three outputs, each aliasing its input's buffer (shown for index
1). -/
theorem c10_buffer_aliasing_witness :
    (preadVec cleanEnv cleanInputs).outs.length = cleanInputs.length
    ∧ ∃ o, (preadVec cleanEnv cleanInputs).outs[1]? = some o
        ∧ o.diov_buffer = some 1 := by
  have h := c10_buffer_aliasing cleanEnv cleanInputs 11 (by decide)
  exact ⟨h.1, h.2 1 ⟨10, 4, 1⟩ (by decide)⟩

end Davix
